import Mathlib

/-!
Verification of the transactional inventory ledger and authorization gate of
the Medlabsklad warehouse server (`src/server.py`).

The server keeps, per organization, a product catalog plus receipt and
shipment sub-ledgers in SQLite, and gates every mutation behind a
session-resolved role.  We embed the database rows as Lean structures, each
API handler of `_route_api` / `_get_current_auth` as a pure function on that
state, and prove the spec's claims about them.

Modelling conventions:
* SQL rows become structures; tables become lists of rows (insertion order).
* Numeric columns are modelled as `Int` (exact arithmetic stands in for
  Python floats on the `REAL` money columns; SQLite integers are unbounded
  and the code can drive stock negative, so `Nat` would be wrong).
* Python's `str.strip()` is `pstrip`, spelled out over the character list so
  that concrete instances reduce.
* `WHERE id = ? AND org_id = ?` lookups become `List.find?` with the same
  predicate; `UPDATE ... WHERE` becomes `List.map` with a conditional;
  `DELETE ... WHERE` becomes `List.filter` of the negated condition.
  `ON DELETE CASCADE` foreign keys are made explicit as the corresponding
  filters, exactly as the schema declares them.
* Generated identifiers (`make_id`, `secrets`) are passed in as arguments.
* An error response returns the state unchanged, which is faithful because in
  every handler all validation/error returns precede the first mutation.
-/

set_option maxHeartbeats 1000000

namespace Medlab

/-- Error taxonomy of spec §7, as produced by the handlers' status codes and
messages: 401 → Unauthenticated, 403 → Forbidden, 400 validation messages →
ValidationError, 404 → NotFound, 400 "Недостаточно товара" → InsufficientStock,
500 → InternalFailure. -/
inductive ApiError
  | Unauthenticated
  | Forbidden
  | ValidationError
  | NotFound
  | InsufficientStock
  | InternalFailure
deriving DecidableEq

/-- Row of `org_products`. -/
structure Product where
  id : String
  org : String
  name : String
  sku : String
  unit : String
  price : Int
  stock : Int
  purchasePrice : Int
deriving DecidableEq

/-- Row of `org_receipts`. -/
structure Receipt where
  id : String
  org : String
  productId : String
  quantity : Int
  cost : Int
deriving DecidableEq

/-- Row of `org_shipments` (timestamps omitted). -/
structure Shipment where
  id : String
  org : String
deriving DecidableEq

/-- Row of `org_shipment_items`. -/
structure ShipmentItem where
  shipmentId : String
  org : String
  productId : String
  quantity : Int
  price : Int
  amount : Int
deriving DecidableEq

/-- The inventory-ledger part of the database. -/
structure LState where
  products : List Product
  receipts : List Receipt
  shipments : List Shipment
  items : List ShipmentItem
deriving DecidableEq

/-- One raw line of a `POST /api/shipments` payload: `productId` (stripped in
the handler), `quantity` (already coerced through `int(float(...))`) and the
optional override `price`. -/
structure RawItem where
  productId : String
  quantity : Int
  price : Option Int
deriving DecidableEq

/-- A line of the handler's `prepared` list. -/
structure Prepared where
  productId : String
  qty : Int
  price : Option Int
deriving DecidableEq

/-- Python's `str.strip()`: drop whitespace from both ends. -/
def pstrip (x : String) : String :=
  ⟨((x.data.dropWhile Char.isWhitespace).reverse.dropWhile Char.isWhitespace).reverse⟩

/-- `POST /api/products` (`server.py` 639-666): trim the name, reject blank,
default SKU/unit, clamp numbers at 0, insert the product, and when the clamped
stock is positive also insert the synthetic receipt. -/
def createProduct (o pid rid nameArg skuArg skuAuto unitArg : String)
    (priceArg : Int) (stockArg : Int) (purchaseArg : Int) (s : LState) :
    Option ApiError × LState :=
  let name := pstrip nameArg
  if name = "" then (some .ValidationError, s)
  else
    let sku := if pstrip skuArg = "" then skuAuto else pstrip skuArg
    let unit := if pstrip unitArg = "" then "шт" else pstrip unitArg
    let price := max 0 priceArg
    let stock := max 0 stockArg
    let purchase := max 0 purchaseArg
    let s1 : LState :=
      { s with products := ⟨pid, o, name, sku, unit, price, stock, purchase⟩ :: s.products }
    if 0 < stock then
      (none, { s1 with receipts := ⟨rid, o, pid, stock, purchase⟩ :: s1.receipts })
    else (none, s1)

/-- `PATCH /api/products/{id}/price` (`server.py` 668-683): clamp the price,
update the row scoped to the caller's org, 404 when no row matched. -/
def updateProductPrice (o pid : String) (priceArg : Int) (s : LState) :
    Option ApiError × LState :=
  let price := max 0 priceArg
  if s.products.any (fun p => p.id == pid && p.org == o) then
    (none, { s with products := s.products.map (fun p =>
      if p.id == pid && p.org == o then { p with price := price } else p) })
  else (some .NotFound, s)

/-- `PATCH /api/products/{id}` (`server.py` 685-705): blank name → 400, else
rewrite name and price in-org, 404 when no row matched. -/
def updateProduct (o pid nameArg : String) (priceArg : Int) (s : LState) :
    Option ApiError × LState :=
  let name := pstrip nameArg
  let price := max 0 priceArg
  if name = "" then (some .ValidationError, s)
  else if s.products.any (fun p => p.id == pid && p.org == o) then
    (none, { s with products := s.products.map (fun p =>
      if p.id == pid && p.org == o then { p with name := name, price := price } else p) })
  else (some .NotFound, s)

/-- `DELETE /api/products/{id}` (`server.py` 707-724): delete the in-org row
(404 when absent); the schema's `ON DELETE CASCADE` drops every receipt and
shipment item referencing the product; then the handler sweeps in-org
shipments left with zero items. -/
def deleteProduct (o pid : String) (s : LState) : Option ApiError × LState :=
  if s.products.any (fun p => p.id == pid && p.org == o) then
    let products' := s.products.filter (fun p => !(p.id == pid && p.org == o))
    let receipts' := s.receipts.filter (fun r => !(r.productId == pid))
    let items' := s.items.filter (fun i => !(i.productId == pid))
    let shipments' := s.shipments.filter (fun sh =>
      !((items'.countP (fun i => i.shipmentId == sh.id) == 0) && sh.org == o))
    (none, { products := products'
             receipts := receipts'
             shipments := shipments'
             items := items' })
  else (some .NotFound, s)

/-- `POST /api/receipts` (`server.py` 726-754): strip the product id, clamp
cost at 0, reject blank id or non-positive quantity, 404 when the product is
absent in-org, else bump stock, overwrite the purchase price only when
`cost > 0` (SQL `CASE WHEN ? > 0`), and insert the receipt row. -/
def createReceipt (o rid pidArg : String) (qty : Int) (costArg : Int)
    (s : LState) : Option ApiError × LState :=
  let pid := pstrip pidArg
  let cost := max 0 costArg
  if pid = "" ∨ qty ≤ 0 then (some .ValidationError, s)
  else
    match s.products.find? (fun p => p.id == pid && p.org == o) with
    | none => (some .NotFound, s)
    | some _ =>
      (none, { s with
        products := s.products.map (fun p =>
          if p.id == pid && p.org == o then
            { p with stock := p.stock + qty
                     purchasePrice := if 0 < cost then cost else p.purchasePrice }
          else p)
        receipts := ⟨rid, o, pid, qty, cost⟩ :: s.receipts })

/-- `DELETE /api/receipts/{id}` (`server.py` 756-774): look up the in-org
receipt (404 when absent), clamp the product's stock at 0 while subtracting
the receipt quantity (SQL `CASE WHEN stock - ? < 0 THEN 0`), and delete the
receipt row. -/
def deleteReceipt (o rid : String) (s : LState) : Option ApiError × LState :=
  match s.receipts.find? (fun r => r.id == rid && r.org == o) with
  | none => (some .NotFound, s)
  | some r =>
    (none, { s with
      products := s.products.map (fun p =>
        if p.id == r.productId && p.org == o then
          { p with stock := if p.stock - r.quantity < 0 then 0 else p.stock - r.quantity }
        else p)
      receipts := s.receipts.filter (fun x => !(x.id == rid && x.org == o)) })

/-- The `prepared` pass of `POST /api/shipments` (`server.py` 786-796): strip
each product id, clamp any override price at 0, and fail on a blank id or
non-positive quantity. -/
def prepareItems : List RawItem → Option (List Prepared)
  | [] => some []
  | item :: rest =>
    let pid := pstrip item.productId
    let cp := item.price.map (fun x => max 0 x)
    if pid = "" ∨ item.quantity ≤ 0 then none
    else (prepareItems rest).map (fun ps => ⟨pid, item.quantity, cp⟩ :: ps)

/-- Phase 1 of `POST /api/shipments` (`server.py` 798-810): re-check every
prepared line against the (unmutated) catalog — absent product → 404, line
quantity above current stock → insufficient stock. -/
def validateLines (o : String) (ps : List Product) : List Prepared → Option ApiError
  | [] => none
  | line :: rest =>
    match ps.find? (fun p => p.id == line.productId && p.org == o) with
    | none => some .NotFound
    | some p =>
      if p.stock < line.qty then some .InsufficientStock
      else validateLines o ps rest

/-- Phase 2 of `POST /api/shipments` (`server.py` 818-834): for each line in
order, re-read the product (its price may be needed for the snapshot),
decrement its stock, and record the shipment item with
`amount = price * quantity`.  A missing product here would crash the handler
(500), modelled as `none`. -/
def commitLines (o sid : String) :
    List Prepared → List Product → Option (List Product × List ShipmentItem)
  | [], ps => some (ps, [])
  | line :: rest, ps =>
    match ps.find? (fun p => p.id == line.productId && p.org == o) with
    | none => none
    | some p =>
      let price := match line.price with
        | some cp => cp
        | none => p.price
      let amount := price * line.qty
      let ps' := ps.map (fun q =>
        if q.id == line.productId && q.org == o then { q with stock := q.stock - line.qty } else q)
      (commitLines o sid rest ps').map
        (fun r => (r.1, ⟨sid, o, line.productId, line.qty, price, amount⟩ :: r.2))

/-- `POST /api/shipments` (`server.py` 776-837): empty payload → 400, the
`prepared` pass → 400, phase-1 validation, then phase 2 inserts the header,
decrements stocks and appends the items. -/
def createShipment (o sid : String) (items : List RawItem) (s : LState) :
    Option ApiError × LState :=
  if items.isEmpty then (some .ValidationError, s)
  else
    match prepareItems items with
    | none => (some .ValidationError, s)
    | some lines =>
      match validateLines o s.products lines with
      | some e => (some e, s)
      | none =>
        match commitLines o sid lines s.products with
        | none => (some .InternalFailure, s)
        | some r =>
          (none, { s with products := r.1
                          shipments := ⟨sid, o⟩ :: s.shipments
                          items := s.items ++ r.2 })

/-- Stock-restoration loop of `DELETE /api/shipments/{id}`
(`server.py` 855-859). -/
def restoreItems (o : String) : List ShipmentItem → List Product → List Product
  | [], ps => ps
  | it :: rest, ps =>
    restoreItems o rest (ps.map (fun p =>
      if p.id == it.productId && p.org == o then { p with stock := p.stock + it.quantity } else p))

/-- `DELETE /api/shipments/{id}` (`server.py` 839-863): 404 when the shipment
is absent in-org, else add every in-org item's quantity back onto its product
(a missing product row is a no-op) and delete the shipment; the items go with
it by `ON DELETE CASCADE`. -/
def deleteShipment (o sid : String) (s : LState) : Option ApiError × LState :=
  match s.shipments.find? (fun sh => sh.id == sid && sh.org == o) with
  | none => (some .NotFound, s)
  | some _ =>
    let its := s.items.filter (fun i => i.shipmentId == sid && i.org == o)
    (none, { s with
      products := restoreItems o its s.products
      shipments := s.shipments.filter (fun sh => !(sh.id == sid && sh.org == o))
      items := s.items.filter (fun i => !(i.shipmentId == sid)) })

/-- `GET /api/state` / `fetch_state` (`server.py` 232-271): the org-scoped
snapshot — products, receipts, and shipments each filtered by the caller's
org, with each shipment's items selected by `shipment_id` alone (the nested
query has no org filter). Ordering by timestamp is not modelled; lists keep
insertion order. -/
def fetchState (o : String) (s : LState) :
    List Product × List Receipt × List (String × List ShipmentItem) :=
  ( s.products.filter (fun p => p.org == o),
    s.receipts.filter (fun r => r.org == o),
    (s.shipments.filter (fun sh => sh.org == o)).map
      (fun sh => (sh.id, s.items.filter (fun i => i.shipmentId == sh.id))) )

/-- Membership roles (`CHECK(role IN ('owner','manager','viewer'))`). -/
inductive Role
  | owner
  | manager
  | viewer
deriving DecidableEq

/-- Row of `users` (only the columns the covered claims read). -/
structure User where
  id : String
  email : String
deriving DecidableEq

/-- Row of `memberships`. -/
structure Membership where
  userId : String
  orgId : String
  role : Role
deriving DecidableEq

/-- Row of `sessions`; `expiresAt` is the parsed timestamp, compared against
`now` as integers. -/
structure Session where
  token : String
  userId : String
  orgId : String
  expiresAt : Int
deriving DecidableEq

/-- The auth-side tables read by `_get_current_auth`. -/
structure AuthDB where
  users : List User
  orgs : List String
  memberships : List Membership
  sessions : List Session
deriving DecidableEq

/-- `_get_current_auth` (`server.py` 455-492): no cookie → no auth; else the
joined lookup (session row AND its user AND its org AND the membership for
that user/org pair) — a failed join returns no auth and leaves the table
untouched; a successful join whose `expires_at <= now` deletes the session
row and returns no auth; otherwise the resolved (user, org, role) context. -/
def resolveAuth (db : AuthDB) (token : Option String) (now : Int) :
    Option (String × String × Role) × AuthDB :=
  match token with
  | none => (none, db)
  | some t =>
    match db.sessions.find? (fun sess => sess.token == t) with
    | none => (none, db)
    | some sess =>
      if db.users.any (fun u => u.id == sess.userId) then
        if db.orgs.any (fun oid => oid == sess.orgId) then
          match db.memberships.find? (fun m => m.userId == sess.userId && m.orgId == sess.orgId) with
          | none => (none, db)
          | some m =>
            if sess.expiresAt ≤ now then
              (none, { db with sessions := db.sessions.filter (fun x => !(x.token == t)) })
            else (some (sess.userId, sess.orgId, m.role), db)
        else (none, db)
      else (none, db)

/-- The ledger operations of `_route_api`, with generated ids as payload. -/
inductive LedgerOp
  | fetchStateOp
  | createProductOp (pid rid nameArg skuArg skuAuto unitArg : String)
      (priceArg : Int) (stockArg : Int) (purchaseArg : Int)
  | updateProductPriceOp (pid : String) (priceArg : Int)
  | updateProductOp (pid nameArg : String) (priceArg : Int)
  | deleteProductOp (pid : String)
  | createReceiptOp (rid pidArg : String) (qty : Int) (costArg : Int)
  | deleteReceiptOp (rid : String)
  | createShipmentOp (sid : String) (items : List RawItem)
  | deleteShipmentOp (sid : String)
deriving DecidableEq

/-- Dispatch a ledger operation for the session's organization. -/
def apply : LedgerOp → String → LState → Option ApiError × LState
  | .fetchStateOp, _, s => (none, s)
  | .createProductOp pid rid n sk ska u pr st pu, o, s =>
      createProduct o pid rid n sk ska u pr st pu s
  | .updateProductPriceOp pid pr, o, s => updateProductPrice o pid pr s
  | .updateProductOp pid n pr, o, s => updateProduct o pid n pr s
  | .deleteProductOp pid, o, s => deleteProduct o pid s
  | .createReceiptOp rid pid qty cost, o, s => createReceipt o rid pid qty cost s
  | .deleteReceiptOp rid, o, s => deleteReceipt o rid s
  | .createShipmentOp sid its, o, s => createShipment o sid its s
  | .deleteShipmentOp sid, o, s => deleteShipment o sid s

/-- Authenticated API requests covered by the role-enforcement claims:
`GET /api/state`, `POST /api/memberships/role` (with the role string already
parsed — `none` models an invalid role name) and the ledger routes. -/
inductive Req
  | stateReq
  | roleChangeReq (emailArg : String) (newRole : Option Role)
  | ledgerReq (op : LedgerOp)
deriving DecidableEq

/-- `_require_role` (`server.py` 501-502) outcome for mutating ledger routes,
which all pass `{"owner", "manager"}`. -/
def canMutate : Role → Bool
  | .owner => true
  | .manager => true
  | .viewer => false

/-- The routing of an authenticated request (`server.py` 596-863): the state
read has no role gate; `memberships/role` requires `owner` and then parses
and applies the role change; every ledger mutation requires owner/manager. -/
def route (db : AuthDB) (s : LState) (o : String) (role : Role) :
    Req → Option ApiError × AuthDB × LState
  | .stateReq => (none, db, s)
  | .roleChangeReq emailArg newRole =>
    if role = .owner then
      let email := (pstrip emailArg).toLower
      match newRole with
      | none => (some .ValidationError, db, s)
      | some r =>
        if email = "" then (some .ValidationError, db, s)
        else
          match db.users.find? (fun u => u.email == email) with
          | none => (some .NotFound, db, s)
          | some u =>
            match db.memberships.find? (fun m => m.userId == u.id && m.orgId == o) with
            | none => (some .NotFound, db, s)
            | some _ =>
              (none, { db with memberships := db.memberships.map (fun m =>
                 if m.userId == u.id && m.orgId == o then { m with role := r } else m) }, s)
    else (some .Forbidden, db, s)
  | .ledgerReq op =>
    match op with
    | .fetchStateOp =>
      let r := apply .fetchStateOp o s
      (r.1, db, r.2)
    | op =>
      if canMutate role then
        let r := apply op o s
        (r.1, db, r.2)
      else (some .Forbidden, db, s)

/-- `_route_api` top (`server.py` 589-594): resolve the session first; a
missing auth context answers 401 before any route runs. -/
def handle (db : AuthDB) (s : LState) (token : Option String) (now : Int)
    (req : Req) : Option ApiError × AuthDB × LState :=
  match resolveAuth db token now with
  | (none, db') => (some .Unauthenticated, db', s)
  | (some ctx, db') => route db' s ctx.2.1 ctx.2.2 req

/-- Referential well-formedness of a ledger state: ids are primary keys and
every receipt / shipment item references a product and (for items) a shipment
of its own organization — which spec §3 notes is the only constructible
shape. -/
def WF (s : LState) : Prop :=
  (s.products.map (·.id)).Nodup ∧
  (s.receipts.map (·.id)).Nodup ∧
  (s.shipments.map (·.id)).Nodup ∧
  (∀ r ∈ s.receipts, ∃ p ∈ s.products, p.id = r.productId ∧ p.org = r.org) ∧
  (∀ i ∈ s.items, ∃ p ∈ s.products, p.id = i.productId ∧ p.org = i.org) ∧
  (∀ i ∈ s.items, ∃ sh ∈ s.shipments, sh.id = i.shipmentId ∧ sh.org = i.org)

instance (s : LState) : Decidable (WF s) := by
  unfold WF
  infer_instance

/-- The organization-o slice of the ledger. -/
def projL (o : String) (s : LState) : LState :=
  { products := s.products.filter (fun p => p.org == o)
    receipts := s.receipts.filter (fun r => r.org == o)
    shipments := s.shipments.filter (fun sh => sh.org == o)
    items := s.items.filter (fun i => i.org == o) }

/-- Freshness of the operation's generated id: `make_id` draws an unused
uuid — a collision would abort the INSERT with a 500.  Only the shipment
header's id affects the isolation statement. -/
def OpFresh : LedgerOp → LState → Prop
  | .createShipmentOp sid _, s => ∀ sh ∈ s.shipments, sh.id ≠ sid
  | _, _ => True

instance (op : LedgerOp) (s : LState) : Decidable (OpFresh op s) := by
  unfold OpFresh
  cases op <;> infer_instance

/-! ## Generic lemmas about the row-list encodings of SQL queries -/

/-- An `UPDATE ... WHERE pred` whose assignment does not touch the columns
`pred` reads commutes with the `WHERE pred` lookup. -/
theorem find?_map_update {α : Type} (l : List α) (pred : α → Bool) (g : α → α)
    (hpres : ∀ x, pred (g x) = pred x) :
    (l.map (fun x => if pred x then g x else x)).find? pred = (l.find? pred).map g := by
  rw [List.find?_map]
  have hcomp : (pred ∘ fun x => if pred x then g x else x) = pred := by
    funext x
    by_cases h : pred x
    · simp [h, hpres]
    · simp [h]
  rw [hcomp]
  cases hf : l.find? pred with
  | none => rfl
  | some p =>
    have hp := List.find?_some hf
    simp [hp]

/-- Rows not matched by an `UPDATE ... WHERE pred` are untouched. -/
theorem map_update_of_none {α : Type} (l : List α) (pred : α → Bool) (g : α → α)
    (h : ∀ x ∈ l, ¬pred x = true) :
    l.map (fun x => if pred x then g x else x) = l := by
  have hmap : l.map (fun x => if pred x then g x else x) = l.map id :=
    List.map_congr_left (fun a ha => by simp [h a ha])
  simpa using hmap

/-- Rewriting the double clamp `if 0 < max 0 c then max 0 c else x` of the
purchase-price update into the claim's `cost > 0` form. -/
theorem clamp_pos_if (c x : Int) :
    (if 0 < max 0 c then max 0 c else x) = (if 0 < c then c else x) := by
  by_cases h : 0 < c
  · rw [max_eq_right h.le]
  · have h0 : max 0 c = 0 := max_eq_left (by omega)
    rw [h0]
    simp [h]

/-- The SQL `CASE WHEN a - b < 0 THEN 0 ELSE a - b END` is a clamped
subtraction. -/
theorem case_clamp (a b : Int) : (if a - b < 0 then 0 else a - b) = max 0 (a - b) := by
  by_cases h : a - b < 0
  · simp [h, max_eq_left h.le]
  · simp [h, max_eq_right (by omega : (0:Int) ≤ a - b)]

end Medlab

namespace Medlab

/-! ## C1 — the stock non-negativity invariant (counterexample evaluation) -/

/-- A product with stock 5, the concrete input on which shipment creation
drives stock negative. -/
def oversellProduct : Product := ⟨"p1", "org1", "Needle", "00030", "pc", 600, 5, 300⟩

/-- A well-formed single-product state with non-negative stock. -/
def oversellState : LState := ⟨[oversellProduct], [], [], []⟩

/-- One `POST /api/shipments` payload naming the same product on two lines of
quantity 3 each: each line passes the phase-1 check against the unmutated
stock of 5, yet phase 2 decrements twice. -/
def oversellItems : List RawItem := [⟨"p1", 3, none⟩, ⟨"p1", 3, none⟩]

/-- C1: the claimed invariant `stock ≥ 0` is violated by the code.  Starting
from a well-formed state where every stock is non-negative, a single
`createShipment` whose items list mentions the same product in two lines
succeeds (no error) and leaves that product's stock at `-1`. -/
theorem C1_duplicate_line_oversell :
    WF oversellState ∧
    (∀ p ∈ oversellState.products, 0 ≤ p.stock) ∧
    (createShipment "org1" "ship1" oversellItems oversellState).1 = none ∧
    ((createShipment "org1" "ship1" oversellItems oversellState).2.products.map
        (fun p => p.stock)) = [-1] := by
  decide

/-! ## C5 — effect of `createReceipt` -/

/-- C5: `createReceipt` on an existing in-org product with positive quantity
answers success, bumps that product's stock by exactly the quantity, prepends
exactly one receipt record, overwrites the recorded purchase price with the
cost precisely when the cost is positive (cost 0 keeps the previous purchase
price), and touches no shipment data. -/
theorem C5_createReceipt_effect (o rid pidArg : String) (qty costArg : Int)
    (s : LState) (p : Product)
    (hpid : pstrip pidArg ≠ "")
    (hq : 0 < qty)
    (hfind : s.products.find? (fun x => x.id == pstrip pidArg && x.org == o) = some p) :
    (createReceipt o rid pidArg qty costArg s).1 = none ∧
    (createReceipt o rid pidArg qty costArg s).2.products.find?
        (fun x => x.id == pstrip pidArg && x.org == o)
      = some { p with stock := p.stock + qty
                      purchasePrice := if 0 < costArg then costArg else p.purchasePrice } ∧
    (createReceipt o rid pidArg qty costArg s).2.receipts
      = ⟨rid, o, pstrip pidArg, qty, max 0 costArg⟩ :: s.receipts ∧
    (createReceipt o rid pidArg qty costArg s).2.shipments = s.shipments ∧
    (createReceipt o rid pidArg qty costArg s).2.items = s.items := by
  have hcond : ¬(pstrip pidArg = "" ∨ qty ≤ 0) := by
    push_neg
    exact ⟨hpid, by omega⟩
  have hupd := find?_map_update s.products
    (fun x => x.id == pstrip pidArg && x.org == o)
    (fun p => { p with stock := p.stock + qty
                       purchasePrice := if 0 < max 0 costArg then max 0 costArg
                         else p.purchasePrice })
    (fun x => rfl)
  have hcall : createReceipt o rid pidArg qty costArg s =
      (none, { s with
        products := s.products.map (fun p =>
          if p.id == pstrip pidArg && p.org == o then
            { p with stock := p.stock + qty
                     purchasePrice := if 0 < max 0 costArg then max 0 costArg
                       else p.purchasePrice }
          else p)
        receipts := ⟨rid, o, pstrip pidArg, qty, max 0 costArg⟩ :: s.receipts }) := by
    simp only [createReceipt]
    rw [if_neg hcond, hfind]
  refine ⟨by rw [hcall], ?_, by rw [hcall], by rw [hcall], by rw [hcall]⟩
  rw [hcall]
  show (List.map _ s.products).find? _ = _
  rw [hupd, hfind, Option.map_some']
  rw [clamp_pos_if]

/-- Concrete instance of the C5 theorem: the spec's scenario — a receipt
with cost 0 on a product with purchase price 50 keeps price 50 and bumps
stock from 5 to 9. -/
def c5State : LState := ⟨[⟨"p1", "o1", "Serum", "00047", "pc", 10, 5, 50⟩], [], [], []⟩

/-- Witness for C5 at a concrete input. -/
theorem C5_createReceipt_effect_witness :
    (createReceipt "o1" "r2" "p1" 4 0 c5State).1 = none ∧
    (createReceipt "o1" "r2" "p1" 4 0 c5State).2.products.find?
        (fun x => x.id == pstrip "p1" && x.org == "o1")
      = some ⟨"p1", "o1", "Serum", "00047", "pc", 10, 9, 50⟩ := by
  have h := C5_createReceipt_effect "o1" "r2" "p1" 4 0 c5State
    ⟨"p1", "o1", "Serum", "00047", "pc", 10, 5, 50⟩ (by decide) (by decide) (by decide)
  refine ⟨h.1, ?_⟩
  rw [h.2.1]
  decide

/-! ## C6 — effect of `deleteReceipt` -/

/-- C6: `deleteReceipt` answers 404 and changes nothing when the receipt id
does not resolve within the caller's organization; on an in-org receipt it
sets the product's stock to `max 0 (stock - quantity)` — clamped, never
negative, with no recency condition — and removes the receipt record,
touching no shipment data. -/
theorem C6_deleteReceipt_effect (o rid : String) (s : LState) :
    ((∀ x ∈ s.receipts, ¬(x.id = rid ∧ x.org = o)) →
      deleteReceipt o rid s = (some .NotFound, s)) ∧
    (∀ r p, s.receipts.find? (fun x => x.id == rid && x.org == o) = some r →
      s.products.find? (fun x => x.id == r.productId && x.org == o) = some p →
      (deleteReceipt o rid s).1 = none ∧
      (deleteReceipt o rid s).2.products.find? (fun x => x.id == r.productId && x.org == o)
        = some { p with stock := max 0 (p.stock - r.quantity) } ∧
      (deleteReceipt o rid s).2.receipts
        = s.receipts.filter (fun x => !(x.id == rid && x.org == o)) ∧
      r ∉ (deleteReceipt o rid s).2.receipts ∧
      (deleteReceipt o rid s).2.shipments = s.shipments ∧
      (deleteReceipt o rid s).2.items = s.items) := by
  constructor
  · intro habs
    have hnone : s.receipts.find? (fun x => x.id == rid && x.org == o) = none := by
      rw [List.find?_eq_none]
      intro x hx
      have := habs x hx
      simp only [Bool.and_eq_true, beq_iff_eq]
      tauto
    simp [deleteReceipt, hnone]
  · intro r p hr hp
    have hupd := find?_map_update s.products
      (fun x => x.id == r.productId && x.org == o)
      (fun q => { q with stock := if q.stock - r.quantity < 0 then 0
                           else q.stock - r.quantity })
      (fun x => rfl)
    have hrpred : (r.id == rid && r.org == o) = true :=
      @List.find?_some _ (fun x => x.id == rid && x.org == o) r s.receipts hr
    refine ⟨by simp [deleteReceipt, hr], ?_, by simp [deleteReceipt, hr], ?_, by simp [deleteReceipt, hr], by simp [deleteReceipt, hr]⟩
    · simp only [deleteReceipt, hr, hupd, hp, Option.map_some']
      rw [case_clamp]
    · simp only [deleteReceipt, hr]
      intro hmem
      rw [List.mem_filter] at hmem
      rw [hrpred] at hmem
      simp at hmem

/-- Concrete state for the C6 witness: one product with stock 2 and a
receipt of quantity 5 for it (not the most recent history — deletion still
clamps at 0). -/
def c6State : LState :=
  ⟨[⟨"p1", "o1", "Serum", "00047", "pc", 10, 2, 50⟩],
   [⟨"r1", "o1", "p1", 5, 40⟩], [], []⟩

/-- Witness for C6 at a concrete input: deleting the quantity-5 receipt from
stock 2 clamps the stock to 0 and removes the receipt. -/
theorem C6_deleteReceipt_effect_witness :
    (deleteReceipt "o1" "r1" c6State).1 = none ∧
    (deleteReceipt "o1" "r1" c6State).2.products.find?
        (fun x => x.id == "p1" && x.org == "o1")
      = some ⟨"p1", "o1", "Serum", "00047", "pc", 10, 0, 50⟩ ∧
    (⟨"r1", "o1", "p1", 5, 40⟩ : Receipt) ∉ (deleteReceipt "o1" "r1" c6State).2.receipts := by
  have h := (C6_deleteReceipt_effect "o1" "r1" c6State).2
    ⟨"r1", "o1", "p1", 5, 40⟩ ⟨"p1", "o1", "Serum", "00047", "pc", 10, 2, 50⟩
    (by decide) (by decide)
  refine ⟨h.1, ?_, h.2.2.2.1⟩
  refine Eq.trans h.2.1 ?_
  decide

/-! ## C9 — effect of `createProduct` -/

/-- C9: `createProduct` rejects a name that is blank after trimming with a
validation error and no state change; otherwise it inserts the product with
the clamped fields, and exactly when the clamped initial stock is positive it
also inserts exactly one matching receipt (quantity = the clamped stock,
cost = the clamped purchase price); with clamped stock 0 the receipts table
is untouched. -/
theorem C9_createProduct_spec (o pid rid nameArg skuArg skuAuto unitArg : String)
    (priceArg stockArg purchaseArg : Int) (s : LState) :
    (pstrip nameArg = "" →
      createProduct o pid rid nameArg skuArg skuAuto unitArg priceArg stockArg purchaseArg s
        = (some .ValidationError, s)) ∧
    (pstrip nameArg ≠ "" →
      (createProduct o pid rid nameArg skuArg skuAuto unitArg priceArg stockArg purchaseArg s).1
        = none ∧
      (createProduct o pid rid nameArg skuArg skuAuto unitArg priceArg stockArg purchaseArg
          s).2.products.find? (fun x => x.id == pid && x.org == o)
        = some ⟨pid, o, pstrip nameArg,
            (if pstrip skuArg = "" then skuAuto else pstrip skuArg),
            (if pstrip unitArg = "" then "шт" else pstrip unitArg),
            max 0 priceArg, max 0 stockArg, max 0 purchaseArg⟩ ∧
      (0 < max 0 stockArg → (∀ x ∈ s.receipts, x.productId ≠ pid) →
        (createProduct o pid rid nameArg skuArg skuAuto unitArg priceArg stockArg purchaseArg
            s).2.receipts.filter (fun x => x.productId == pid)
          = [⟨rid, o, pid, max 0 stockArg, max 0 purchaseArg⟩]) ∧
      (max 0 stockArg = 0 →
        (createProduct o pid rid nameArg skuArg skuAuto unitArg priceArg stockArg purchaseArg
            s).2.receipts = s.receipts)) := by
  constructor
  · intro hblank
    simp [createProduct, hblank]
  · intro hname
    have hfiltnil : ∀ hfr : ∀ x ∈ s.receipts, x.productId ≠ pid,
        s.receipts.filter (fun x => x.productId == pid) = [] := by
      intro hfr
      rw [List.filter_eq_nil_iff]
      intro x hx
      simp [hfr x hx]
    by_cases hstock : 0 < max 0 stockArg
    · refine ⟨?_, ?_, ?_, ?_⟩
      · simp [createProduct, hname, hstock]
      · simp [createProduct, hname, hstock]
      · intro _ hfr
        simp only [createProduct, hname, if_neg hname, hstock, if_pos hstock]
        simp [List.filter_cons, hfiltnil hfr]
      · intro h0
        omega
    · refine ⟨?_, ?_, ?_, ?_⟩
      · simp [createProduct, hname, hstock]
      · simp [createProduct, hname, hstock]
      · intro h0 _
        omega
      · intro _
        simp [createProduct, hname, hstock]

/-- Witness for C9 at the spec's scenario: `initialStock = 10`,
`purchasePrice = 100` yields product stock 10 and exactly one receipt of
quantity 10 and cost 100. -/
theorem C9_createProduct_spec_witness :
    (createProduct "o1" "p9" "r9" "Roller" "00044" "AUTO-1" "pc" 65000 10 100
        ⟨[], [], [], []⟩).1 = none ∧
    (createProduct "o1" "p9" "r9" "Roller" "00044" "AUTO-1" "pc" 65000 10 100
        ⟨[], [], [], []⟩).2.products.find? (fun x => x.id == "p9" && x.org == "o1")
      = some ⟨"p9", "o1", "Roller", "00044", "pc", 65000, 10, 100⟩ ∧
    (createProduct "o1" "p9" "r9" "Roller" "00044" "AUTO-1" "pc" 65000 10 100
        ⟨[], [], [], []⟩).2.receipts.filter (fun x => x.productId == "p9")
      = [⟨"r9", "o1", "p9", 10, 100⟩] := by
  have h := (C9_createProduct_spec "o1" "p9" "r9" "Roller" "00044" "AUTO-1" "pc" 65000 10 100
    ⟨[], [], [], []⟩).2 (by decide)
  refine ⟨h.1, ?_, ?_⟩
  · rw [h.2.1]
    decide
  · rw [h.2.2.1 (by decide) (by decide)]
    decide

/-! ## Characterisation of the shipment two-phase commit -/

/-- The prepared line the handler builds from a raw payload line. -/
def toLine (it : RawItem) : Prepared :=
  ⟨pstrip it.productId, it.quantity, it.price.map (fun x => max 0 x)⟩

/-- A payload line the `prepared` pass rejects. -/
def lineBad (it : RawItem) : Prop := pstrip it.productId = "" ∨ it.quantity ≤ 0

instance (it : RawItem) : Decidable (lineBad it) := by
  unfold lineBad
  infer_instance

/-- The in-org product a payload line refers to. -/
def lineProduct (o : String) (s : LState) (it : RawItem) : Option Product :=
  s.products.find? (fun p => p.id == pstrip it.productId && p.org == o)

/-- The price phase 2 snapshots for a prepared line: the clamped override if
present, else the product's current catalog price. -/
def priceOf (o : String) (ps : List Product) (line : Prepared) : Int :=
  match line.price with
  | some cp => cp
  | none =>
    match ps.find? (fun p => p.id == line.productId && p.org == o) with
    | some p => p.price
    | none => 0

/-- Total quantity the prepared lines request for the product id `pid`. -/
def linesQty (pid : String) (lines : List Prepared) : Int :=
  ((lines.filter (fun ln => ln.productId == pid)).map (fun ln => ln.qty)).sum

/-- Total quantity the given shipment items carry for the product id `pid`. -/
def itemsQty (pid : String) (its : List ShipmentItem) : Int :=
  ((its.filter (fun i => i.productId == pid)).map (fun i => i.quantity)).sum

theorem linesQty_cons (pid : String) (line : Prepared) (rest : List Prepared) :
    linesQty pid (line :: rest)
      = (if line.productId == pid then line.qty else 0) + linesQty pid rest := by
  by_cases h : (line.productId == pid) = true
  · simp [linesQty, List.filter_cons, h]
  · simp [linesQty, List.filter_cons, h]

theorem itemsQty_cons (pid : String) (i : ShipmentItem) (rest : List ShipmentItem) :
    itemsQty pid (i :: rest)
      = (if i.productId == pid then i.quantity else 0) + itemsQty pid rest := by
  by_cases h : (i.productId == pid) = true
  · simp [itemsQty, List.filter_cons, h]
  · simp [itemsQty, List.filter_cons, h]

/-- A `SELECT`-style lookup commutes with an `UPDATE` map that leaves the
selected columns unchanged. -/
theorem find?_map_presv {α : Type} (l : List α) (pred : α → Bool) (f : α → α)
    (hf : ∀ x, pred (f x) = pred x) :
    (l.map f).find? pred = (l.find? pred).map f := by
  rw [List.find?_map]
  have hcomp : pred ∘ f = pred := funext hf
  rw [hcomp]

/-- A stock-only product update does not change the snapshotted price. -/
theorem priceOf_map (o : String) (ps : List Product) (f : Product → Product)
    (line : Prepared)
    (hid : ∀ p, (f p).id = p.id) (horg : ∀ p, (f p).org = p.org)
    (hprice : ∀ p, (f p).price = p.price) :
    priceOf o (ps.map f) line = priceOf o ps line := by
  unfold priceOf
  cases line.price with
  | some cp => rfl
  | none =>
    rw [find?_map_presv ps (fun p => p.id == line.productId && p.org == o) f
      (fun x => by simp [hid, horg])]
    cases ps.find? (fun p => p.id == line.productId && p.org == o) with
    | none => rfl
    | some p => simp [hprice]

/-- The `prepared` pass fails exactly when some line is malformed. -/
theorem prepareItems_eq_none_iff (items : List RawItem) :
    prepareItems items = none ↔ ∃ it ∈ items, lineBad it := by
  induction items with
  | nil => simp [prepareItems]
  | cons it rest ih =>
    by_cases h : lineBad it
    · have hcond : pstrip it.productId = "" ∨ it.quantity ≤ 0 := h
      simp [prepareItems, hcond, h]
    · have hcond : ¬(pstrip it.productId = "" ∨ it.quantity ≤ 0) := h
      simp only [prepareItems, if_neg hcond]
      rw [List.exists_mem_cons_iff]
      cases hp : prepareItems rest with
      | none =>
        simp only [Option.map_none', true_iff]
        exact Or.inr (ih.mp hp)
      | some ls =>
        simp only [Option.map_some']
        constructor
        · intro hfalse
          exact absurd hfalse (by simp)
        · intro hcases
          rcases hcases with hbad | hrest
          · exact absurd hbad h
          · rw [← ih] at hrest
            rw [hrest] at hp
            exact absurd hp (by simp)

/-- On an all-well-formed payload the `prepared` pass is the line-wise
conversion. -/
theorem prepareItems_eq_some (items : List RawItem)
    (h : ∀ it ∈ items, ¬lineBad it) :
    prepareItems items = some (items.map toLine) := by
  induction items with
  | nil => rfl
  | cons it rest ih =>
    have hcond : ¬(pstrip it.productId = "" ∨ it.quantity ≤ 0) := h it (by simp)
    simp only [prepareItems, if_neg hcond, List.map_cons]
    rw [ih (fun x hx => h x (List.mem_cons_of_mem it hx))]
    rfl

/-- Phase 1 passes exactly when every line's product resolves in-org with
enough stock. -/
theorem validateLines_none_iff (o : String) (ps : List Product) (lines : List Prepared) :
    validateLines o ps lines = none ↔
      ∀ line ∈ lines, ∃ p,
        ps.find? (fun x => x.id == line.productId && x.org == o) = some p ∧
        line.qty ≤ p.stock := by
  induction lines with
  | nil => simp [validateLines]
  | cons line rest ih =>
    cases hf : ps.find? (fun x => x.id == line.productId && x.org == o) with
    | none => simp [validateLines, hf]
    | some p =>
      by_cases hs : p.stock < line.qty
      · simp only [validateLines, hf, if_pos hs]
        constructor
        · intro hfalse
          exact absurd hfalse (by simp)
        · intro hall
          rcases hall line (by simp) with ⟨q, hq, hqs⟩
          rw [hf] at hq
          injection hq with hq
          subst hq
          omega
      · simp only [validateLines, hf, if_neg hs, ih]
        constructor
        · intro hall line' hline'
          rcases List.mem_cons.mp hline' with heq | hmem
          · subst heq
            exact ⟨p, hf, by omega⟩
          · exact hall line' hmem
        · intro hall line' hline'
          exact hall line' (List.mem_cons_of_mem line hline')

/-- Phase 1 answers `NotFound` when some line's product is absent in-org
while no resolvable line is short of stock. -/
theorem validateLines_eq_notFound (o : String) (ps : List Product) (lines : List Prepared)
    (hok : ∀ line ∈ lines, ∀ p,
      ps.find? (fun x => x.id == line.productId && x.org == o) = some p →
      line.qty ≤ p.stock)
    (hmiss : ∃ line ∈ lines,
      ps.find? (fun x => x.id == line.productId && x.org == o) = none) :
    validateLines o ps lines = some .NotFound := by
  induction lines with
  | nil => simp at hmiss
  | cons line rest ih =>
    cases hf : ps.find? (fun x => x.id == line.productId && x.org == o) with
    | none => simp [validateLines, hf]
    | some p =>
      have hstk := hok line (by simp) p hf
      simp only [validateLines, hf, if_neg (by omega : ¬p.stock < line.qty)]
      apply ih
      · intro l hl q hq
        exact hok l (List.mem_cons_of_mem line hl) q hq
      · rcases hmiss with ⟨l, hl, hnone⟩
        rcases List.mem_cons.mp hl with heq | hmem
        · subst heq
          rw [hf] at hnone
          exact absurd hnone (by simp)
        · exact ⟨l, hmem, hnone⟩

/-- Phase 1 answers `InsufficientStock` when every line's product resolves
but some line requests more than the current stock. -/
theorem validateLines_eq_insufficient (o : String) (ps : List Product) (lines : List Prepared)
    (hfound : ∀ line ∈ lines,
      (ps.find? (fun x => x.id == line.productId && x.org == o)).isSome)
    (hviol : ∃ line ∈ lines, ∃ p,
      ps.find? (fun x => x.id == line.productId && x.org == o) = some p ∧
      p.stock < line.qty) :
    validateLines o ps lines = some .InsufficientStock := by
  induction lines with
  | nil => simp at hviol
  | cons line rest ih =>
    cases hf : ps.find? (fun x => x.id == line.productId && x.org == o) with
    | none =>
      have := hfound line (by simp)
      rw [hf] at this
      exact absurd this (by simp)
    | some p =>
      by_cases hs : p.stock < line.qty
      · simp [validateLines, hf, hs]
      · simp only [validateLines, hf, if_neg hs]
        apply ih
        · intro l hl
          exact hfound l (List.mem_cons_of_mem line hl)
        · rcases hviol with ⟨l, hl, q, hq, hqs⟩
          rcases List.mem_cons.mp hl with heq | hmem
          · subst heq
            rw [hf] at hq
            injection hq with hq
            subst hq
            omega
          · exact ⟨l, hmem, q, hq, hqs⟩

/-- When every line's product resolves, phase 2 succeeds and amounts to: each
in-org product's stock drops by the total quantity its id is requested with,
and the recorded items are the lines decorated with the snapshotted price and
`amount = price * quantity`. -/
theorem commitLines_eq (o sid : String) (lines : List Prepared) (ps : List Product)
    (h : ∀ line ∈ lines, (ps.find? (fun p => p.id == line.productId && p.org == o)).isSome) :
    commitLines o sid lines ps =
      some (ps.map (fun p => if p.org == o then
              { p with stock := p.stock - linesQty p.id lines } else p),
            lines.map (fun line =>
              ⟨sid, o, line.productId, line.qty, priceOf o ps line,
               priceOf o ps line * line.qty⟩)) := by
  induction lines generalizing ps with
  | nil =>
    simp only [commitLines, List.map_nil]
    congr 1
    have hpt : ∀ p : Product,
        (if p.org == o then { p with stock := p.stock - linesQty p.id [] } else p) = p := by
      intro p
      have h0 : linesQty p.id [] = 0 := rfl
      by_cases ho : (p.org == o) = true
      · simp [ho, h0]
      · simp [ho]
    have hmap : ps.map (fun p => if p.org == o then
          { p with stock := p.stock - linesQty p.id [] } else p) = ps.map id :=
      List.map_congr_left (fun p _ => hpt p)
    rw [hmap, List.map_id]
  | cons line rest ih =>
    obtain ⟨p, hp⟩ := Option.isSome_iff_exists.mp (h line (by simp))
    have hfpres : ∀ (pid : String) (x : Product),
        (((if x.id == line.productId && x.org == o then
             { x with stock := x.stock - line.qty } else x).id == pid &&
          (if x.id == line.productId && x.org == o then
             { x with stock := x.stock - line.qty } else x).org == o))
          = (x.id == pid && x.org == o) := by
      intro pid x
      by_cases hx : (x.id == line.productId && x.org == o) = true
      · simp [hx]
      · simp [hx]
    have hrest : ∀ l ∈ rest,
        (((ps.map (fun q => if q.id == line.productId && q.org == o then
            { q with stock := q.stock - line.qty } else q)).find?
          (fun p => p.id == l.productId && p.org == o)).isSome) := by
      intro l hl
      rw [find?_map_presv ps (fun p => p.id == l.productId && p.org == o) _
        (fun x => hfpres l.productId x)]
      rcases Option.isSome_iff_exists.mp (h l (List.mem_cons_of_mem line hl)) with ⟨q, hq⟩
      rw [hq]
      rfl
    simp only [commitLines, hp]
    rw [ih _ hrest, Option.map_some']
    have hprods : (ps.map (fun q => if q.id == line.productId && q.org == o then
          { q with stock := q.stock - line.qty } else q)).map
        (fun p => if p.org == o then { p with stock := p.stock - linesQty p.id rest } else p)
        = ps.map (fun p => if p.org == o then
            { p with stock := p.stock - linesQty p.id (line :: rest) } else p) := by
      rw [List.map_map]
      apply List.map_congr_left
      intro q _
      simp only [Function.comp_apply]
      by_cases horg : q.org = o
      · by_cases hid : q.id = line.productId
        · have hq : linesQty line.productId (line :: rest)
              = line.qty + linesQty line.productId rest := by
            rw [linesQty_cons, if_pos (by simp)]
          simp [hid, horg, hq, sub_sub]
        · have hq : linesQty q.id (line :: rest) = linesQty q.id rest := by
            rw [linesQty_cons, if_neg (by
              simp only [beq_iff_eq]
              exact fun hEq => hid hEq.symm), zero_add]
          simp [hid, horg, hq]
      · simp [horg]
    have hitems : rest.map (fun l =>
          (⟨sid, o, l.productId, l.qty,
            priceOf o (ps.map (fun q => if q.id == line.productId && q.org == o then
              { q with stock := q.stock - line.qty } else q)) l,
            priceOf o (ps.map (fun q => if q.id == line.productId && q.org == o then
              { q with stock := q.stock - line.qty } else q)) l * l.qty⟩ : ShipmentItem))
        = rest.map (fun l =>
            ⟨sid, o, l.productId, l.qty, priceOf o ps l, priceOf o ps l * l.qty⟩) := by
      apply List.map_congr_left
      intro l _
      have hpr := priceOf_map o ps (fun q => if q.id == line.productId && q.org == o then
          { q with stock := q.stock - line.qty } else q) l
        (fun x => by by_cases hx : (x.id == line.productId && x.org == o) = true <;> simp [hx])
        (fun x => by by_cases hx : (x.id == line.productId && x.org == o) = true <;> simp [hx])
        (fun x => by by_cases hx : (x.id == line.productId && x.org == o) = true <;> simp [hx])
      rw [hpr]
    have hhead : (match line.price with
        | some cp => cp
        | none => p.price) = priceOf o ps line := by
      unfold priceOf
      cases line.price with
      | some cp => rfl
      | none => rw [hp]
    rw [hprods, hitems, List.map_cons]
    rw [hhead]

/-- Restoring a deleted shipment's items amounts to: each in-org product's
stock grows by the total quantity the items carry for its id. -/
theorem restoreItems_eq (o : String) (its : List ShipmentItem) (ps : List Product) :
    restoreItems o its ps
      = ps.map (fun p => if p.org == o then
          { p with stock := p.stock + itemsQty p.id its } else p) := by
  induction its generalizing ps with
  | nil =>
    simp only [restoreItems]
    have hpt : ∀ p : Product,
        (if p.org == o then { p with stock := p.stock + itemsQty p.id [] } else p) = p := by
      intro p
      have h0 : itemsQty p.id [] = 0 := rfl
      by_cases ho : (p.org == o) = true
      · simp [ho, h0]
      · simp [ho]
    have hmap : ps.map (fun p => if p.org == o then
          { p with stock := p.stock + itemsQty p.id [] } else p) = ps.map id :=
      List.map_congr_left (fun p _ => hpt p)
    rw [hmap, List.map_id]
  | cons i rest ih =>
    simp only [restoreItems]
    rw [ih, List.map_map]
    apply List.map_congr_left
    intro q _
    simp only [Function.comp_apply]
    by_cases horg : q.org = o
    · by_cases hid : q.id = i.productId
      · have hq : itemsQty i.productId (i :: rest)
            = i.quantity + itemsQty i.productId rest := by
          rw [itemsQty_cons, if_pos (by simp)]
        simp [hid, horg, hq, add_assoc]
      · have hq : itemsQty q.id (i :: rest) = itemsQty q.id rest := by
          rw [itemsQty_cons, if_neg (by
            simp only [beq_iff_eq]
            exact fun hEq => hid hEq.symm), zero_add]
        simp [hid, horg, hq]
    · simp [horg]

/-- The shipment items phase 2 inserts carry back exactly the per-product
quantities the prepared lines requested. -/
theorem itemsQty_map_lines (pid o sid : String) (ps : List Product)
    (lines : List Prepared) :
    itemsQty pid (lines.map (fun line =>
        (⟨sid, o, line.productId, line.qty, priceOf o ps line,
          priceOf o ps line * line.qty⟩ : ShipmentItem)))
      = linesQty pid lines := by
  unfold itemsQty linesQty
  rw [List.filter_map, List.map_map]
  rfl

/-- Full characterisation of a successful `createShipment`: the header is
prepended, every in-org product's stock drops by the summed requested
quantity for its id, and the items are appended in line order with
`amount = price * quantity`. -/
theorem createShipment_success (o sid : String) (items : List RawItem) (s : LState)
    (hne : items ≠ [])
    (hwf : ∀ it ∈ items, ¬lineBad it)
    (hok : ∀ it ∈ items, ∃ p, lineProduct o s it = some p ∧ it.quantity ≤ p.stock) :
    createShipment o sid items s =
      (none, { s with
        products := s.products.map (fun p => if p.org == o then
          { p with stock := p.stock - linesQty p.id (items.map toLine) } else p)
        shipments := ⟨sid, o⟩ :: s.shipments
        items := s.items ++ (items.map toLine).map (fun line =>
          ⟨sid, o, line.productId, line.qty, priceOf o s.products line,
           priceOf o s.products line * line.qty⟩) }) := by
  have hprep := prepareItems_eq_some items hwf
  have hempty : ¬items.isEmpty = true := by
    cases items with
    | nil => exact absurd rfl hne
    | cons a l => simp
  have hval : validateLines o s.products (items.map toLine) = none := by
    rw [validateLines_none_iff]
    intro line hline
    rcases List.mem_map.mp hline with ⟨it, hit, hconv⟩
    rcases hok it hit with ⟨p, hp, hle⟩
    subst hconv
    exact ⟨p, hp, hle⟩
  have hfound : ∀ line ∈ items.map toLine,
      (s.products.find? (fun p => p.id == line.productId && p.org == o)).isSome := by
    intro line hline
    rcases List.mem_map.mp hline with ⟨it, hit, hconv⟩
    rcases hok it hit with ⟨p, hp, _⟩
    subst hconv
    have hp' : s.products.find?
        (fun p => p.id == (toLine it).productId && p.org == o) = some p := hp
    rw [hp']
    rfl
  have hcommit := commitLines_eq o sid (items.map toLine) s.products hfound
  unfold createShipment
  rw [if_neg hempty]
  simp only [hprep, hval, hcommit]

/-! ## C2 — two-phase atomicity of `createShipment` -/

/-- C2: `createShipment` is two-phase and atomic.  A malformed line (blank
product id or non-positive quantity) fails the whole call with
`ValidationError` and no mutation; a line whose product is absent in-org (all
resolvable lines being adequately stocked) fails it with `NotFound` and no
mutation; a line requesting more than current stock (all lines resolvable)
fails it with `InsufficientStock` and no mutation; only when every line
passes are the header, all stock decrements, and all items — each with
`amount = price * quantity` — committed. -/
theorem C2_createShipment_two_phase (o sid : String) (items : List RawItem) (s : LState) :
    ((∃ it ∈ items, lineBad it) →
      createShipment o sid items s = (some .ValidationError, s)) ∧
    ((∀ it ∈ items, ¬lineBad it) →
     (∃ it ∈ items, lineProduct o s it = none) →
     (∀ it ∈ items, ∀ p, lineProduct o s it = some p → it.quantity ≤ p.stock) →
      createShipment o sid items s = (some .NotFound, s)) ∧
    ((∀ it ∈ items, ¬lineBad it) →
     (∀ it ∈ items, (lineProduct o s it).isSome) →
     (∃ it ∈ items, ∃ p, lineProduct o s it = some p ∧ p.stock < it.quantity) →
      createShipment o sid items s = (some .InsufficientStock, s)) ∧
    (items ≠ [] →
     (∀ it ∈ items, ¬lineBad it) →
     (∀ it ∈ items, ∃ p, lineProduct o s it = some p ∧ it.quantity ≤ p.stock) →
      (createShipment o sid items s).1 = none ∧
      (createShipment o sid items s).2.products
        = s.products.map (fun p => if p.org == o then
            { p with stock := p.stock - linesQty p.id (items.map toLine) } else p) ∧
      (createShipment o sid items s).2.shipments = ⟨sid, o⟩ :: s.shipments ∧
      (createShipment o sid items s).2.items
        = s.items ++ (items.map toLine).map (fun line =>
            ⟨sid, o, line.productId, line.qty, priceOf o s.products line,
             priceOf o s.products line * line.qty⟩) ∧
      (createShipment o sid items s).2.receipts = s.receipts) := by
  refine ⟨?_, ?_, ?_, ?_⟩
  · intro hbad
    rcases hbad with ⟨it, hit, hb⟩
    have hempty : ¬items.isEmpty = true := by
      cases items with
      | nil => simp at hit
      | cons a l => simp
    have hprep : prepareItems items = none :=
      (prepareItems_eq_none_iff items).mpr ⟨it, hit, hb⟩
    unfold createShipment
    rw [if_neg hempty]
    simp only [hprep]
  · intro hwf hmiss hok
    rcases hmiss with ⟨it0, hit0, hnone⟩
    have hempty : ¬items.isEmpty = true := by
      cases items with
      | nil => simp at hit0
      | cons a l => simp
    have hprep := prepareItems_eq_some items hwf
    have hval : validateLines o s.products (items.map toLine) = some .NotFound := by
      apply validateLines_eq_notFound
      · intro line hline p hp
        rcases List.mem_map.mp hline with ⟨it, hit, hconv⟩
        subst hconv
        exact hok it hit p hp
      · refine ⟨toLine it0, List.mem_map_of_mem toLine hit0, hnone⟩
    unfold createShipment
    rw [if_neg hempty]
    simp only [hprep, hval]
  · intro hwf hfound hviol
    rcases hviol with ⟨it0, hit0, p0, hp0, hs0⟩
    have hempty : ¬items.isEmpty = true := by
      cases items with
      | nil => simp at hit0
      | cons a l => simp
    have hprep := prepareItems_eq_some items hwf
    have hval : validateLines o s.products (items.map toLine)
        = some .InsufficientStock := by
      apply validateLines_eq_insufficient
      · intro line hline
        rcases List.mem_map.mp hline with ⟨it, hit, hconv⟩
        subst hconv
        exact hfound it hit
      · exact ⟨toLine it0, List.mem_map_of_mem toLine hit0, p0, hp0, hs0⟩
    unfold createShipment
    rw [if_neg hempty]
    simp only [hprep, hval]
  · intro hne hwf hok
    rw [createShipment_success o sid items s hne hwf hok]
    exact ⟨rfl, rfl, rfl, rfl, rfl⟩

/-- Concrete state for the C2 witness. -/
def c2State : LState := ⟨[⟨"p1", "o1", "Serum", "00047", "pc", 2000, 35, 1200⟩], [], [], []⟩

/-- Witness for C2 at a concrete input: a one-line shipment of quantity 5
commits the header, the stock decrement 35 → 30, and the single item with
`amount = 2000 * 5`. -/
theorem C2_createShipment_two_phase_witness :
    (createShipment "o1" "s1" [⟨"p1", 5, none⟩] c2State).1 = none ∧
    ((createShipment "o1" "s1" [⟨"p1", 5, none⟩] c2State).2.products.map
        (fun p => p.stock)) = [30] ∧
    (createShipment "o1" "s1" [⟨"p1", 5, none⟩] c2State).2.shipments
      = [⟨"s1", "o1"⟩] ∧
    (createShipment "o1" "s1" [⟨"p1", 5, none⟩] c2State).2.items
      = [⟨"s1", "o1", "p1", 5, 2000, 10000⟩] := by
  have h := (C2_createShipment_two_phase "o1" "s1" [⟨"p1", 5, none⟩] c2State).2.2.2
    (by decide) (by decide)
    (by
      intro it hit
      simp only [List.mem_singleton] at hit
      subst hit
      exact ⟨⟨"p1", "o1", "Serum", "00047", "pc", 2000, 35, 1200⟩, rfl, by decide⟩)
  refine ⟨h.1, ?_, ?_, ?_⟩
  · rw [h.2.1]
    decide
  · rw [h.2.2.1]
    decide
  · rw [h.2.2.2.1]
    decide

/-! ## C4 — createShipment / deleteShipment round-trip -/

/-- C4: immediately deleting a freshly created shipment succeeds and restores
every product's stock — in fact the whole products table — to exactly its
pre-shipment value. -/
theorem C4_shipment_roundtrip (o sid : String) (items : List RawItem) (s s' : LState)
    (hfresh : ∀ i ∈ s.items, i.shipmentId ≠ sid)
    (hcreate : createShipment o sid items s = (none, s')) :
    (deleteShipment o sid s').1 = none ∧
    (deleteShipment o sid s').2.products = s.products := by
  by_cases hempty : items.isEmpty = true
  · exfalso
    unfold createShipment at hcreate
    rw [if_pos hempty] at hcreate
    exact absurd (congrArg Prod.fst hcreate) (by simp)
  cases hprep : prepareItems items with
  | none =>
    exfalso
    unfold createShipment at hcreate
    rw [if_neg hempty] at hcreate
    simp only [hprep] at hcreate
    exact absurd (congrArg Prod.fst hcreate) (by simp)
  | some lines =>
    cases hval : validateLines o s.products lines with
    | some e =>
      exfalso
      unfold createShipment at hcreate
      rw [if_neg hempty] at hcreate
      simp only [hprep, hval] at hcreate
      exact absurd (congrArg Prod.fst hcreate) (by simp)
    | none =>
      have hfound : ∀ line ∈ lines,
          (s.products.find? (fun p => p.id == line.productId && p.org == o)).isSome := by
        intro l hl
        rcases (validateLines_none_iff o s.products lines).mp hval l hl with ⟨p, hp, _⟩
        rw [hp]
        rfl
      have hcommit := commitLines_eq o sid lines s.products hfound
      have hX : createShipment o sid items s =
          (none, { s with
            products := s.products.map (fun p => if p.org == o then
              { p with stock := p.stock - linesQty p.id lines } else p)
            shipments := ⟨sid, o⟩ :: s.shipments
            items := s.items ++ lines.map (fun line =>
              ⟨sid, o, line.productId, line.qty, priceOf o s.products line,
               priceOf o s.products line * line.qty⟩) }) := by
        unfold createShipment
        rw [if_neg hempty]
        simp only [hprep, hval, hcommit]
      have hcomb := hX.symm.trans hcreate
      injection hcomb with h1 h2
      subst h2
      have hfiltold : s.items.filter (fun i => i.shipmentId == sid && i.org == o) = [] := by
        rw [List.filter_eq_nil_iff]
        intro i hi
        simp only [Bool.and_eq_true, beq_iff_eq, not_and]
        intro hsid
        exact absurd hsid (hfresh i hi)
      have hfiltnew : (lines.map (fun line =>
            (⟨sid, o, line.productId, line.qty, priceOf o s.products line,
              priceOf o s.products line * line.qty⟩ : ShipmentItem))).filter
            (fun i => i.shipmentId == sid && i.org == o)
          = lines.map (fun line =>
            ⟨sid, o, line.productId, line.qty, priceOf o s.products line,
             priceOf o s.products line * line.qty⟩) := by
        rw [List.filter_eq_self]
        intro i hi
        rcases List.mem_map.mp hi with ⟨line, _, hconv⟩
        subst hconv
        simp
      constructor
      · simp [deleteShipment, List.find?_cons]
      · show (deleteShipment o sid _).2.products = s.products
        simp only [deleteShipment, List.find?_cons, beq_self_eq_true, Bool.and_self]
        simp only [List.filter_append, hfiltold, hfiltnew, List.nil_append]
        rw [restoreItems_eq]
        rw [List.map_map]
        have hpt : ∀ q : Product, q ∈ s.products →
            ((fun p => if p.org == o then
                { p with stock := p.stock + itemsQty p.id (lines.map (fun line =>
                    (⟨sid, o, line.productId, line.qty, priceOf o s.products line,
                      priceOf o s.products line * line.qty⟩ : ShipmentItem))) } else p) ∘
             (fun p => if p.org == o then
                { p with stock := p.stock - linesQty p.id lines } else p)) q = q := by
          intro q _
          simp only [Function.comp_apply]
          by_cases horg : q.org = o
          · simp [horg, itemsQty_map_lines]
            rw [← horg]
          · simp [horg]
        have hmap : s.products.map _ = s.products.map id :=
          List.map_congr_left hpt
        rw [hmap, List.map_id]

/-- Witness for C4 at a concrete input: the duplicate-line oversell shipment
of the C1 state, when deleted, restores the stock to 5 exactly. -/
theorem C4_shipment_roundtrip_witness :
    (deleteShipment "org1" "ship1"
        (createShipment "org1" "ship1" oversellItems oversellState).2).1 = none ∧
    (deleteShipment "org1" "ship1"
        (createShipment "org1" "ship1" oversellItems oversellState).2).2.products
      = oversellState.products := by
  exact C4_shipment_roundtrip "org1" "ship1" oversellItems oversellState
    (createShipment "org1" "ship1" oversellItems oversellState).2
    (by decide)
    (by
      have h1 : (createShipment "org1" "ship1" oversellItems oversellState).1 = none := by
        decide
      exact Prod.ext h1 rfl)

/-! ## C7 — role enforcement -/

/-- Phase 1 of a shipment can only answer nothing, `NotFound`, or
`InsufficientStock`. -/
theorem validateLines_cases (o : String) (ps : List Product) (lines : List Prepared) :
    validateLines o ps lines = none ∨ validateLines o ps lines = some .NotFound ∨
    validateLines o ps lines = some .InsufficientStock := by
  induction lines with
  | nil => exact Or.inl rfl
  | cons line rest ih =>
    unfold validateLines
    cases ps.find? (fun p => p.id == line.productId && p.org == o) with
    | none => simp
    | some p =>
      by_cases hs : p.stock < line.qty
      · simp [hs]
      · simpa [hs] using ih

/-- The possible error answers of `createShipment`. -/
theorem createShipment_fst (o sid : String) (its : List RawItem) (s : LState) :
    (createShipment o sid its s).1 = none ∨
    (createShipment o sid its s).1 = some .ValidationError ∨
    (createShipment o sid its s).1 = some .NotFound ∨
    (createShipment o sid its s).1 = some .InsufficientStock ∨
    (createShipment o sid its s).1 = some .InternalFailure := by
  unfold createShipment
  split
  · simp
  · split
    · simp
    · rename_i lines _
      rcases validateLines_cases o s.products lines with h | h | h
      · simp only [h]
        split <;> simp
      · simp [h]
      · simp [h]

/-- No ledger operation itself produces a Forbidden error: that outcome can
only come from the `_require_role` gate. -/
theorem apply_ne_forbidden (op : LedgerOp) (o : String) (s : LState) :
    (apply op o s).1 ≠ some .Forbidden := by
  cases op with
  | createShipmentOp sid its =>
    simp only [apply]
    rcases createShipment_fst o sid its s with h | h | h | h | h <;> rw [h] <;> simp
  | _ =>
    simp only [apply, createProduct, updateProductPrice, updateProduct, deleteProduct,
      createReceipt, deleteReceipt, deleteShipment] <;>
    (repeat' split) <;> simp

/-- C7: a viewer session invoking `createProduct`, `createShipment`, or the
membership role change receives Forbidden with no state change; a manager
invoking a role change receives Forbidden; an owner is never answered
Forbidden on any of these routes; and a missing or expired session token is
answered with the distinct Unauthenticated outcome. -/
theorem C7_role_enforcement :
    (∀ (db : AuthDB) (s : LState) (o : String)
       (pid rid nameArg skuArg skuAuto unitArg : String)
       (priceArg stockArg purchaseArg : Int),
      route db s o .viewer (.ledgerReq (.createProductOp pid rid nameArg skuArg skuAuto
          unitArg priceArg stockArg purchaseArg))
        = (some .Forbidden, db, s)) ∧
    (∀ (db : AuthDB) (s : LState) (o sid : String) (items : List RawItem),
      route db s o .viewer (.ledgerReq (.createShipmentOp sid items))
        = (some .Forbidden, db, s)) ∧
    (∀ (db : AuthDB) (s : LState) (o email : String) (nr : Option Role),
      route db s o .viewer (.roleChangeReq email nr) = (some .Forbidden, db, s)) ∧
    (∀ (db : AuthDB) (s : LState) (o email : String) (nr : Option Role),
      route db s o .manager (.roleChangeReq email nr) = (some .Forbidden, db, s)) ∧
    (∀ (db : AuthDB) (s : LState) (o : String) (req : Req),
      (route db s o .owner req).1 ≠ some .Forbidden) ∧
    (∀ (db : AuthDB) (s : LState) (t : String) (now : Int) (req : Req),
      (∀ sess ∈ db.sessions, sess.token ≠ t) →
      handle db s (some t) now req = (some .Unauthenticated, db, s)) ∧
    (∀ (db : AuthDB) (s : LState) (t : String) (now : Int) (req : Req) (sess : Session),
      db.sessions.find? (fun x => x.token == t) = some sess →
      sess.expiresAt ≤ now →
      (handle db s (some t) now req).1 = some .Unauthenticated) ∧
    ApiError.Forbidden ≠ ApiError.Unauthenticated := by
  refine ⟨?_, ?_, ?_, ?_, ?_, ?_, ?_, by decide⟩
  · intro db s o pid rid nameArg skuArg skuAuto unitArg priceArg stockArg purchaseArg
    rfl
  · intro db s o sid items
    rfl
  · intro db s o email nr
    rfl
  · intro db s o email nr
    rfl
  · intro db s o req
    cases req with
    | stateReq => simp [route]
    | roleChangeReq email nr =>
      simp only [route, if_pos rfl]
      (repeat' split) <;> simp_all
    | ledgerReq op =>
      cases op <;>
        first
        | exact apply_ne_forbidden .fetchStateOp o s
        | (simp only [route, canMutate, if_pos rfl]
           apply apply_ne_forbidden)
  · intro db s t now req hmiss
    have hfind : db.sessions.find? (fun x => x.token == t) = none := by
      rw [List.find?_eq_none]
      intro sess hsess
      simp [hmiss sess hsess]
    simp [handle, resolveAuth, hfind]
  · intro db s t now req sess hfind hexp
    have h1 : (resolveAuth db (some t) now).1 = none := by
      simp only [resolveAuth, hfind]
      (repeat' split) <;> simp_all
    unfold handle
    cases hres : resolveAuth db (some t) now with
    | mk a b =>
      rw [hres] at h1
      have h2 : a = none := h1
      subst h2
      rfl

/-- Witness for C7 at concrete inputs (the conjuncts with hypotheses: the
missing-token and expired-token cases). -/
theorem C7_role_enforcement_witness :
    handle ⟨[], [], [], []⟩ ⟨[], [], [], []⟩ (some "ghost") 0 .stateReq
      = (some .Unauthenticated, ⟨[], [], [], []⟩, ⟨[], [], [], []⟩) ∧
    (handle ⟨[⟨"u1", "u@x"⟩], ["o1"], [⟨"u1", "o1", .owner⟩], [⟨"t1", "u1", "o1", 0⟩]⟩
        ⟨[], [], [], []⟩ (some "t1") 5 .stateReq).1 = some .Unauthenticated := by
  constructor
  · exact C7_role_enforcement.2.2.2.2.2.1 ⟨[], [], [], []⟩ ⟨[], [], [], []⟩ "ghost" 0
      .stateReq (by decide)
  · exact C7_role_enforcement.2.2.2.2.2.2.1
      ⟨[⟨"u1", "u@x"⟩], ["o1"], [⟨"u1", "o1", .owner⟩], [⟨"t1", "u1", "o1", 0⟩]⟩
      ⟨[], [], [], []⟩ "t1" 5 .stateReq ⟨"t1", "u1", "o1", 0⟩ (by decide) (by decide)

/-! ## C8 — lazy session expiry -/

/-- An auth state in which every stored session for token `t` has already
expired by time `now`. -/
def TokenDead (t : String) (now : Int) (db : AuthDB) : Prop :=
  ∀ sess ∈ db.sessions, sess.token = t → sess.expiresAt ≤ now

instance (t : String) (now : Int) (db : AuthDB) : Decidable (TokenDead t now db) := by
  unfold TokenDead
  infer_instance

/-- Counterexample to C8 as stated: a stored, expired session whose user has
no membership in the bound organization.  Resolving reports no auth context
(Unauthenticated) but does NOT delete the session record, because the
deletion sits behind the user/org/membership join. -/
def staleSessionDB : AuthDB :=
  ⟨[⟨"u1", "u@x"⟩], ["o1"], [], [⟨"t1", "u1", "o1", 0⟩]⟩

/-- C8 counterexample: at `now = 5 ≥ expires_at = 0` the resolve reports
Unauthenticated yet the session record survives, contradicting the claimed
unconditional deletion. -/
theorem C8_expired_resolve_keeps_record :
    (∃ sess ∈ staleSessionDB.sessions, sess.token = "t1" ∧ sess.expiresAt ≤ 5) ∧
    (resolveAuth staleSessionDB (some "t1") 5).1 = none ∧
    (resolveAuth staleSessionDB (some "t1") 5).2 = staleSessionDB ∧
    staleSessionDB.sessions ≠ [] := by
  decide

/-- C8 (amended): resolving a stored token with `now ≥ expires_at` always
reports Unauthenticated; the record is deleted when the session's user, its
organization and the user's membership in it still exist; and in every case
the token stays unresolvable — once every session stored for the token has
expired, any later resolve (at any `now' ≥ now`) reports Unauthenticated and
preserves that state of affairs. -/
theorem C8_lazy_expiry (db : AuthDB) (t : String) (now : Int) :
    (∀ sess, db.sessions.find? (fun x => x.token == t) = some sess →
      sess.expiresAt ≤ now →
      ((resolveAuth db (some t) now).1 = none ∧
       (db.users.any (fun u => u.id == sess.userId) = true →
        db.orgs.any (fun x => x == sess.orgId) = true →
        (db.memberships.find? (fun m =>
          m.userId == sess.userId && m.orgId == sess.orgId)).isSome →
        (resolveAuth db (some t) now).2.sessions
          = db.sessions.filter (fun x => !(x.token == t))))) ∧
    (TokenDead t now db → ∀ now', now ≤ now' →
      (resolveAuth db (some t) now').1 = none ∧
      TokenDead t now' (resolveAuth db (some t) now').2) := by
  constructor
  · intro sess hfind hexp
    constructor
    · simp only [resolveAuth, hfind]
      (repeat' split) <;> simp_all
    · intro hu ho hm
      obtain ⟨m, hm'⟩ := Option.isSome_iff_exists.mp hm
      simp only [resolveAuth, hfind, if_pos hu, if_pos ho, hm', if_pos hexp]
  · intro hdead now' hle
    have hmono : ∀ sess ∈ db.sessions, sess.token = t → sess.expiresAt ≤ now' :=
      fun sess hs ht => le_trans (hdead sess hs ht) hle
    cases hfind : db.sessions.find? (fun x => x.token == t) with
    | none =>
      constructor
      · simp only [resolveAuth, hfind]
      · simp only [resolveAuth, hfind]
        exact hmono
    | some sess =>
      have hmem := List.mem_of_find?_eq_some hfind
      have htok : sess.token = t := by
        have := @List.find?_some _ (fun x => x.token == t) sess db.sessions hfind
        simpa using this
      have hexp' : sess.expiresAt ≤ now' := hmono sess hmem htok
      constructor
      · simp only [resolveAuth, hfind]
        (repeat' split) <;> simp_all
      · simp only [resolveAuth, hfind]
        (repeat' split) <;>
          first
          | exact hmono
          | (intro x hx hxt
             exact hmono x (List.mem_of_mem_filter hx) hxt)
          | simp_all

/-- Auth state for the C8 witness: expired session whose joins all resolve,
so the record is deleted. -/
def c8DB : AuthDB :=
  ⟨[⟨"u1", "u@x"⟩], ["o1"], [⟨"u1", "o1", .owner⟩], [⟨"t1", "u1", "o1", 0⟩]⟩

/-- Witness for the amended C8 at a concrete input: resolving the expired
token reports no auth context, deletes the record, and the token can never
be resolved again. -/
theorem C8_lazy_expiry_witness :
    (resolveAuth c8DB (some "t1") 5).1 = none ∧
    (resolveAuth c8DB (some "t1") 5).2.sessions = [] ∧
    (resolveAuth (resolveAuth c8DB (some "t1") 5).2 (some "t1") 99).1 = none := by
  have h := C8_lazy_expiry c8DB "t1" 5
  have h1 := h.1 ⟨"t1", "u1", "o1", 0⟩ (by decide) (by decide)
  refine ⟨h1.1, ?_, ?_⟩
  · rw [h1.2 (by decide) (by decide) (by decide)]
    decide
  · exact ((C8_lazy_expiry (resolveAuth c8DB (some "t1") 5).2 "t1" 99).2
      (by decide) 99 (by decide)).1

/-! ## C10 — membership loss yields Unauthenticated without deletion -/

/-- C10: resolving an existing, unexpired session whose principal no longer
holds a membership in the bound organization reports Unauthenticated (not
Forbidden) and leaves the session table untouched; and a resolve mutates the
auth state only when it detects an expired session for the token. -/
theorem C10_membershipless_session (db : AuthDB) (s : LState) (t : String) (now : Int)
    (req : Req) (sess : Session)
    (hfind : db.sessions.find? (fun x => x.token == t) = some sess)
    (hnomem : ∀ m ∈ db.memberships, ¬(m.userId = sess.userId ∧ m.orgId = sess.orgId)) :
    resolveAuth db (some t) now = (none, db) ∧
    handle db s (some t) now req = (some .Unauthenticated, db, s) ∧
    ApiError.Unauthenticated ≠ ApiError.Forbidden ∧
    (∀ (db' : AuthDB) (t' : String) (now' : Int),
      (resolveAuth db' (some t') now').2 ≠ db' →
      ∃ sess', db'.sessions.find? (fun x => x.token == t') = some sess' ∧
        sess'.expiresAt ≤ now') := by
  have hmnone : db.memberships.find? (fun m =>
      m.userId == sess.userId && m.orgId == sess.orgId) = none := by
    rw [List.find?_eq_none]
    intro m hm
    have := hnomem m hm
    simp only [Bool.and_eq_true, beq_iff_eq]
    tauto
  have hres : resolveAuth db (some t) now = (none, db) := by
    simp only [resolveAuth, hfind]
    (repeat' split) <;> simp_all
  refine ⟨hres, ?_, by decide, ?_⟩
  · simp only [handle, hres]
  · intro db' t' now' hch
    simp only [resolveAuth] at hch
    cases hf : db'.sessions.find? (fun x => x.token == t') with
    | none =>
      simp only [hf] at hch
      exact absurd rfl hch
    | some sess' =>
      simp only [hf] at hch
      refine ⟨sess', rfl, ?_⟩
      by_cases hu : db'.users.any (fun u => u.id == sess'.userId) = true
      · rw [if_pos hu] at hch
        by_cases ho : db'.orgs.any (fun x => x == sess'.orgId) = true
        · rw [if_pos ho] at hch
          cases hm : db'.memberships.find? (fun m =>
              m.userId == sess'.userId && m.orgId == sess'.orgId) with
          | none =>
            simp only [hm] at hch
            exact absurd rfl hch
          | some m =>
            simp only [hm] at hch
            by_cases he : sess'.expiresAt ≤ now'
            · exact he
            · rw [if_neg he] at hch
              exact absurd rfl hch
        · rw [if_neg ho] at hch
          exact absurd rfl hch
      · rw [if_neg hu] at hch
        exact absurd rfl hch

/-- Auth state for the C10 witness: a live session bound to an organization
the user is no longer a member of. -/
def c10DB : AuthDB :=
  ⟨[⟨"u1", "u@x"⟩], ["o1"], [⟨"u2", "o1", .owner⟩], [⟨"t1", "u1", "o1", 100⟩]⟩

/-- Witness for C10 at a concrete input. -/
theorem C10_membershipless_session_witness :
    resolveAuth c10DB (some "t1") 5 = (none, c10DB) ∧
    handle c10DB ⟨[], [], [], []⟩ (some "t1") 5 .stateReq
      = (some .Unauthenticated, c10DB, ⟨[], [], [], []⟩) := by
  have h := C10_membershipless_session c10DB ⟨[], [], [], []⟩ "t1" 5 .stateReq
    ⟨"t1", "u1", "o1", 100⟩ (by decide) (by decide)
  exact ⟨h.1, h.2.1⟩

/-! ## C3 — multi-tenant isolation: generic lemmas

Every SQL query of the ledger either carries an `org_id = ?` filter or (for
the cascades) is covered by referential well-formedness.  These lemmas let
each operation be computed through the caller-org slice of the state and
show the other-org slices untouched. -/

section OrgList

variable {α : Type} (forg : α → String) (q : α → Bool) (o o' : String)

/-- A `WHERE base AND org_id = o` lookup only sees the org-o slice. -/
theorem find?_filter_org (l : List α) :
    (l.filter (fun x => forg x == o)).find? (fun x => q x && forg x == o)
      = l.find? (fun x => q x && forg x == o) := by
  induction l with
  | nil => rfl
  | cons a t ih =>
    by_cases h : forg a = o
    · by_cases hq : q a = true
      · simp [List.filter_cons, List.find?_cons, h, hq]
      · simp only [Bool.not_eq_true] at hq
        simp [List.filter_cons, List.find?_cons, h, hq, ih]
    · have hb : (forg a == o) = false := by simp [h]
      simp [List.filter_cons, List.find?_cons, hb, ih]

/-- A `WHERE base AND org_id = o` existence check only sees the org-o
slice. -/
theorem any_filter_org (l : List α) :
    (l.filter (fun x => forg x == o)).any (fun x => q x && forg x == o)
      = l.any (fun x => q x && forg x == o) := by
  induction l with
  | nil => rfl
  | cons a t ih =>
    by_cases h : forg a = o
    · simp [List.filter_cons, List.any_cons, h, ih]
    · have hb : (forg a == o) = false := by simp [h]
      simp [List.filter_cons, List.any_cons, hb, ih]

/-- Two row filters commute. -/
theorem filter_comm' (p r : α → Bool) (l : List α) :
    (l.filter p).filter r = (l.filter r).filter p := by
  induction l with
  | nil => rfl
  | cons a t ih =>
    by_cases hp : p a = true <;> by_cases hr : r a = true <;>
      simp [List.filter_cons, hp, hr, ih]

/-- An org-o `UPDATE` whose assignment keeps the org column commutes with
taking the org-o slice. -/
theorem filter_org_map_same (g : α → α) (hg : ∀ x, forg (g x) = forg x) (l : List α) :
    (l.map (fun x => if q x && forg x == o then g x else x)).filter (fun x => forg x == o)
      = (l.filter (fun x => forg x == o)).map
          (fun x => if q x && forg x == o then g x else x) := by
  induction l with
  | nil => rfl
  | cons a t ih =>
    have hfa : forg (if q a && forg a == o then g a else a) = forg a := by
      by_cases hq : (q a && (forg a == o)) = true
      · rw [if_pos hq]
        exact hg a
      · rw [if_neg hq]
    simp only [List.map_cons, List.filter_cons, hfa]
    by_cases h : (forg a == o) = true
    · rw [if_pos h, if_pos h, List.map_cons, ih]
    · rw [if_neg h, if_neg h]
      exact ih

/-- An org-o `UPDATE` leaves every other org's slice untouched. -/
theorem filter_org_map_other (g : α → α) (hg : ∀ x, forg (g x) = forg x)
    (hne : o' ≠ o) (l : List α) :
    (l.map (fun x => if q x && forg x == o then g x else x)).filter (fun x => forg x == o')
      = l.filter (fun x => forg x == o') := by
  induction l with
  | nil => rfl
  | cons a t ih =>
    have hfa : forg (if q a && forg a == o then g a else a) = forg a := by
      by_cases hq : (q a && (forg a == o)) = true
      · rw [if_pos hq]
        exact hg a
      · rw [if_neg hq]
    simp only [List.map_cons, List.filter_cons, hfa]
    by_cases h' : (forg a == o') = true
    · have ho : (forg a == o) = false := by
        have ha' : forg a = o' := by simpa using h'
        simp only [beq_eq_false_iff_ne, ne_eq, ha']
        exact hne
      have hno : ¬(q a && (forg a == o)) = true := by simp [ho]
      rw [if_pos h', if_pos h', if_neg hno, ih]
    · rw [if_neg h', if_neg h']
      exact ih

/-- The conditional (`if org = o then g x else x`) form of an `UPDATE`, as it
appears in the phase-2 characterisation, also commutes with the org-o
slice. -/
theorem filter_org_maporg_same (g : α → α) (hg : ∀ x, forg (g x) = forg x) (l : List α) :
    (l.map (fun x => if forg x == o then g x else x)).filter (fun x => forg x == o)
      = (l.filter (fun x => forg x == o)).map (fun x => if forg x == o then g x else x) := by
  induction l with
  | nil => rfl
  | cons a t ih =>
    have hfa : forg (if forg a == o then g a else a) = forg a := by
      by_cases hq : (forg a == o) = true
      · rw [if_pos hq]
        exact hg a
      · rw [if_neg hq]
    simp only [List.map_cons, List.filter_cons, hfa]
    by_cases h : (forg a == o) = true
    · simp only [if_pos h, List.map_cons]
      rw [ih]
    · simp only [if_neg h]
      exact ih

/-- The conditional org-o `UPDATE` leaves every other org's slice
untouched. -/
theorem filter_org_maporg_other (g : α → α) (hg : ∀ x, forg (g x) = forg x)
    (hne : o' ≠ o) (l : List α) :
    (l.map (fun x => if forg x == o then g x else x)).filter (fun x => forg x == o')
      = l.filter (fun x => forg x == o') := by
  induction l with
  | nil => rfl
  | cons a t ih =>
    have hfa : forg (if forg a == o then g a else a) = forg a := by
      by_cases hq : (forg a == o) = true
      · rw [if_pos hq]
        exact hg a
      · rw [if_neg hq]
    simp only [List.map_cons, List.filter_cons, hfa]
    by_cases h' : (forg a == o') = true
    · have ho : ¬(forg a == o) = true := by
        have ha' : forg a = o' := by simpa using h'
        simp only [beq_iff_eq, ha']
        exact hne
      rw [if_pos h', if_pos h', if_neg ho, ih]
    · rw [if_neg h', if_neg h']
      exact ih

/-- An org-o `DELETE` leaves every other org's slice untouched. -/
theorem filter_org_del_other (hne : o' ≠ o) (l : List α) :
    (l.filter (fun x => !(q x && forg x == o))).filter (fun x => forg x == o')
      = l.filter (fun x => forg x == o') := by
  rw [filter_comm']
  apply List.filter_eq_self.mpr
  intro x hx
  rcases List.mem_filter.mp hx with ⟨-, hx'⟩
  have h' : forg x = o' := by simpa using hx'
  have hfo : (forg x == o) = false := by
    simp only [beq_eq_false_iff_ne, ne_eq, h']
    exact fun hEq => hne hEq
  simp [hfo]

/-- A filter that provably keeps every org-o' row leaves the o' slice
untouched (used for the cascades, under well-formedness). -/
theorem filter_of_all_org (p : α → Bool) (l : List α)
    (h : ∀ x ∈ l, forg x = o' → p x = true) :
    (l.filter p).filter (fun x => forg x == o') = l.filter (fun x => forg x == o') := by
  rw [filter_comm']
  apply List.filter_eq_self.mpr
  intro x hx
  rcases List.mem_filter.mp hx with ⟨hmem, hx'⟩
  simp [h x hmem (by simpa using hx')]

/-- A count over rows that provably all live in org o can be taken over the
org-o slice. -/
theorem countP_filter_org (p : α → Bool) (l : List α)
    (h : ∀ x ∈ l, p x = true → forg x = o) :
    l.countP p = (l.filter (fun x => forg x == o)).countP p := by
  induction l with
  | nil => rfl
  | cons a t ih =>
    have ih' := ih (fun x hx => h x (List.mem_cons_of_mem a hx))
    by_cases hp : p a = true
    · have ha : (forg a == o) = true := by simp [h a (by simp) hp]
      simp [List.filter_cons, List.countP_cons, ha, hp, ih']
    · by_cases ha : (forg a == o) = true
      · simp [List.filter_cons, List.countP_cons, ha, hp, ih']
      · simp [List.filter_cons, List.countP_cons, ha, hp, ih']

/-- A filter over rows that provably all live in org o can be taken over the
org-o slice. -/
theorem filter_restrict_org (p : α → Bool) (l : List α)
    (h : ∀ x ∈ l, p x = true → forg x = o) :
    l.filter p = (l.filter (fun x => forg x == o)).filter p := by
  induction l with
  | nil => rfl
  | cons a t ih =>
    have ih' := ih (fun x hx => h x (List.mem_cons_of_mem a hx))
    by_cases hp : p a = true
    · have ha : (forg a == o) = true := by simp [h a (by simp) hp]
      simp [List.filter_cons, ha, hp, ih']
    · by_cases ha : (forg a == o) = true
      · simp [List.filter_cons, ha, hp, ih']
      · simp [List.filter_cons, ha, hp, ih']

end OrgList

/-! ## C3 — per-operation isolation lemmas -/

theorem projL_products {o : String} {s t : LState} (h : projL o s = projL o t) :
    s.products.filter (fun p => p.org == o) = t.products.filter (fun p => p.org == o) :=
  congrArg LState.products h

theorem projL_receipts {o : String} {s t : LState} (h : projL o s = projL o t) :
    s.receipts.filter (fun r => r.org == o) = t.receipts.filter (fun r => r.org == o) :=
  congrArg LState.receipts h

theorem projL_shipments {o : String} {s t : LState} (h : projL o s = projL o t) :
    s.shipments.filter (fun sh => sh.org == o) = t.shipments.filter (fun sh => sh.org == o) :=
  congrArg LState.shipments h

theorem projL_items {o : String} {s t : LState} (h : projL o s = projL o t) :
    s.items.filter (fun i => i.org == o) = t.items.filter (fun i => i.org == o) :=
  congrArg LState.items h

/-- The org-o product lookup with any base predicate agrees on states with
equal org-o slices. -/
theorem find?_products_congr (o : String) (q : Product → Bool) {s t : LState}
    (hst : projL o s = projL o t) :
    s.products.find? (fun p => q p && p.org == o)
      = t.products.find? (fun p => q p && p.org == o) := by
  rw [← find?_filter_org Product.org q o s.products,
      ← find?_filter_org Product.org q o t.products, projL_products hst]

theorem any_products_congr (o : String) (q : Product → Bool) {s t : LState}
    (hst : projL o s = projL o t) :
    s.products.any (fun p => q p && p.org == o)
      = t.products.any (fun p => q p && p.org == o) := by
  rw [← any_filter_org Product.org q o s.products,
      ← any_filter_org Product.org q o t.products, projL_products hst]

theorem find?_receipts_congr (o : String) (q : Receipt → Bool) {s t : LState}
    (hst : projL o s = projL o t) :
    s.receipts.find? (fun r => q r && r.org == o)
      = t.receipts.find? (fun r => q r && r.org == o) := by
  rw [← find?_filter_org Receipt.org q o s.receipts,
      ← find?_filter_org Receipt.org q o t.receipts, projL_receipts hst]

theorem find?_shipments_congr (o : String) (q : Shipment → Bool) {s t : LState}
    (hst : projL o s = projL o t) :
    s.shipments.find? (fun sh => q sh && sh.org == o)
      = t.shipments.find? (fun sh => q sh && sh.org == o) := by
  rw [← find?_filter_org Shipment.org q o s.shipments,
      ← find?_filter_org Shipment.org q o t.shipments, projL_shipments hst]

theorem beq_org_false {o o' : String} (hne : o' ≠ o) : ((o : String) == o') = false := by
  simp only [beq_eq_false_iff_ne, ne_eq]
  exact fun hEq => hne hEq.symm

theorem createProduct_iso (o pid rid n sk ska u : String) (pr st pu : Int)
    (s t : LState) (hst : projL o s = projL o t) :
    (createProduct o pid rid n sk ska u pr st pu s).1
      = (createProduct o pid rid n sk ska u pr st pu t).1 ∧
    projL o (createProduct o pid rid n sk ska u pr st pu s).2
      = projL o (createProduct o pid rid n sk ska u pr st pu t).2 := by
  by_cases hname : pstrip n = ""
  · simp only [createProduct, if_pos hname]
    exact ⟨by trivial, hst⟩
  · by_cases hstock : (0:Int) < max 0 st
    · simp only [createProduct, if_neg hname, if_pos hstock]
      refine ⟨by trivial, ?_⟩
      simp only [projL, List.filter_cons, beq_self_eq_true, if_true, LState.mk.injEq]
      exact ⟨congrArg (_ :: ·) (projL_products hst),
             congrArg (_ :: ·) (projL_receipts hst),
             projL_shipments hst, projL_items hst⟩
    · simp only [createProduct, if_neg hname, if_neg hstock]
      refine ⟨by trivial, ?_⟩
      simp only [projL, List.filter_cons, beq_self_eq_true, if_true, LState.mk.injEq]
      exact ⟨congrArg (_ :: ·) (projL_products hst), projL_receipts hst,
             projL_shipments hst, projL_items hst⟩

theorem createProduct_frame (o o' : String) (hne : o' ≠ o)
    (pid rid n sk ska u : String) (pr st pu : Int) (s : LState) :
    projL o' (createProduct o pid rid n sk ska u pr st pu s).2 = projL o' s := by
  have hoo := beq_org_false hne
  by_cases hname : pstrip n = ""
  · simp [createProduct, if_pos hname]
  · by_cases hstock : (0:Int) < max 0 st
    · simp only [createProduct, if_neg hname, if_pos hstock]
      simp [projL, List.filter_cons, hoo]
    · simp only [createProduct, if_neg hname, if_neg hstock]
      simp [projL, List.filter_cons, hoo]

theorem updateProductPrice_iso (o pid : String) (pr : Int) (s t : LState)
    (hst : projL o s = projL o t) :
    (updateProductPrice o pid pr s).1 = (updateProductPrice o pid pr t).1 ∧
    projL o (updateProductPrice o pid pr s).2
      = projL o (updateProductPrice o pid pr t).2 := by
  have hany := any_products_congr o (fun p => p.id == pid) hst
  by_cases h : s.products.any (fun p => p.id == pid && p.org == o) = true
  · have ht : t.products.any (fun p => p.id == pid && p.org == o) = true := by
      rw [← hany]
      exact h
    simp only [updateProductPrice, if_pos h, if_pos ht]
    refine ⟨by trivial, ?_⟩
    simp only [projL, LState.mk.injEq]
    refine ⟨?_, projL_receipts hst, projL_shipments hst, projL_items hst⟩
    rw [filter_org_map_same Product.org (fun p => p.id == pid) o
          (fun p => { p with price := max 0 pr }) (fun x => rfl) s.products,
        filter_org_map_same Product.org (fun p => p.id == pid) o
          (fun p => { p with price := max 0 pr }) (fun x => rfl) t.products,
        projL_products hst]
  · have ht : ¬t.products.any (fun p => p.id == pid && p.org == o) = true := by
      rw [← hany]
      exact h
    simp only [updateProductPrice, if_neg h, if_neg ht]
    exact ⟨by trivial, hst⟩

theorem updateProductPrice_frame (o o' : String) (hne : o' ≠ o)
    (pid : String) (pr : Int) (s : LState) :
    projL o' (updateProductPrice o pid pr s).2 = projL o' s := by
  by_cases h : s.products.any (fun p => p.id == pid && p.org == o) = true
  · simp only [updateProductPrice, if_pos h, projL, LState.mk.injEq]
    refine ⟨?_, by trivial, by trivial, by trivial⟩
    exact filter_org_map_other Product.org (fun p => p.id == pid) o o'
      (fun p => { p with price := max 0 pr }) (fun x => rfl) hne s.products
  · simp only [updateProductPrice, if_neg h]

theorem updateProduct_iso (o pid n : String) (pr : Int) (s t : LState)
    (hst : projL o s = projL o t) :
    (updateProduct o pid n pr s).1 = (updateProduct o pid n pr t).1 ∧
    projL o (updateProduct o pid n pr s).2 = projL o (updateProduct o pid n pr t).2 := by
  have hany := any_products_congr o (fun p => p.id == pid) hst
  by_cases hname : pstrip n = ""
  · simp only [updateProduct, if_pos hname]
    exact ⟨by trivial, hst⟩
  by_cases h : s.products.any (fun p => p.id == pid && p.org == o) = true
  · have ht : t.products.any (fun p => p.id == pid && p.org == o) = true := by
      rw [← hany]
      exact h
    simp only [updateProduct, if_neg hname, if_pos h, if_pos ht]
    refine ⟨by trivial, ?_⟩
    simp only [projL, LState.mk.injEq]
    refine ⟨?_, projL_receipts hst, projL_shipments hst, projL_items hst⟩
    rw [filter_org_map_same Product.org (fun p => p.id == pid) o
          (fun p => { p with name := pstrip n, price := max 0 pr }) (fun x => rfl) s.products,
        filter_org_map_same Product.org (fun p => p.id == pid) o
          (fun p => { p with name := pstrip n, price := max 0 pr }) (fun x => rfl) t.products,
        projL_products hst]
  · have ht : ¬t.products.any (fun p => p.id == pid && p.org == o) = true := by
      rw [← hany]
      exact h
    simp only [updateProduct, if_neg hname, if_neg h, if_neg ht]
    exact ⟨by trivial, hst⟩

theorem updateProduct_frame (o o' : String) (hne : o' ≠ o)
    (pid n : String) (pr : Int) (s : LState) :
    projL o' (updateProduct o pid n pr s).2 = projL o' s := by
  by_cases hname : pstrip n = ""
  · simp [updateProduct, if_pos hname]
  by_cases h : s.products.any (fun p => p.id == pid && p.org == o) = true
  · simp only [updateProduct, if_neg hname, if_pos h, projL, LState.mk.injEq]
    refine ⟨?_, by trivial, by trivial, by trivial⟩
    exact filter_org_map_other Product.org (fun p => p.id == pid) o o'
      (fun p => { p with name := pstrip n, price := max 0 pr }) (fun x => rfl) hne s.products
  · simp only [updateProduct, if_neg hname, if_neg h]

theorem createReceipt_iso (o rid pidArg : String) (qty cost : Int) (s t : LState)
    (hst : projL o s = projL o t) :
    (createReceipt o rid pidArg qty cost s).1 = (createReceipt o rid pidArg qty cost t).1 ∧
    projL o (createReceipt o rid pidArg qty cost s).2
      = projL o (createReceipt o rid pidArg qty cost t).2 := by
  have hfind := find?_products_congr o (fun p => p.id == pstrip pidArg) hst
  by_cases hbad : pstrip pidArg = "" ∨ qty ≤ 0
  · simp only [createReceipt, if_pos hbad]
    exact ⟨by trivial, hst⟩
  · simp only [createReceipt, if_neg hbad]
    cases hf : s.products.find? (fun p => p.id == pstrip pidArg && p.org == o) with
    | none =>
      rw [hf] at hfind
      simp only [hf, ← hfind]
      exact ⟨by trivial, hst⟩
    | some p =>
      rw [hf] at hfind
      have hft : t.products.find? (fun p => p.id == pstrip pidArg && p.org == o)
          = some p := hfind.symm
      simp only [hf, hft]
      refine ⟨by trivial, ?_⟩
      simp only [projL, List.filter_cons, beq_self_eq_true, if_true, LState.mk.injEq]
      refine ⟨?_, congrArg (_ :: ·) (projL_receipts hst),
              projL_shipments hst, projL_items hst⟩
      rw [filter_org_map_same Product.org (fun p => p.id == pstrip pidArg) o
            (fun p => { p with stock := p.stock + qty
                               purchasePrice := if 0 < max 0 cost then max 0 cost
                                 else p.purchasePrice }) (fun x => rfl) s.products,
          filter_org_map_same Product.org (fun p => p.id == pstrip pidArg) o
            (fun p => { p with stock := p.stock + qty
                               purchasePrice := if 0 < max 0 cost then max 0 cost
                                 else p.purchasePrice }) (fun x => rfl) t.products,
          projL_products hst]

theorem createReceipt_frame (o o' : String) (hne : o' ≠ o)
    (rid pidArg : String) (qty cost : Int) (s : LState) :
    projL o' (createReceipt o rid pidArg qty cost s).2 = projL o' s := by
  have hoo := beq_org_false hne
  by_cases hbad : pstrip pidArg = "" ∨ qty ≤ 0
  · simp [createReceipt, if_pos hbad]
  · simp only [createReceipt, if_neg hbad]
    cases hf : s.products.find? (fun p => p.id == pstrip pidArg && p.org == o) with
    | none => simp [hf]
    | some p =>
      simp only [hf, projL, List.filter_cons, hoo, Bool.false_eq_true, if_false,
        LState.mk.injEq]
      refine ⟨?_, by trivial, by trivial, by trivial⟩
      exact filter_org_map_other Product.org (fun p => p.id == pstrip pidArg) o o'
        (fun p => { p with stock := p.stock + qty
                           purchasePrice := if 0 < max 0 cost then max 0 cost
                             else p.purchasePrice }) (fun x => rfl) hne s.products

theorem deleteReceipt_iso (o rid : String) (s t : LState)
    (hst : projL o s = projL o t) :
    (deleteReceipt o rid s).1 = (deleteReceipt o rid t).1 ∧
    projL o (deleteReceipt o rid s).2 = projL o (deleteReceipt o rid t).2 := by
  have hfind := find?_receipts_congr o (fun r => r.id == rid) hst
  cases hf : s.receipts.find? (fun r => r.id == rid && r.org == o) with
  | none =>
    rw [hf] at hfind
    simp only [deleteReceipt, hf, ← hfind]
    exact ⟨by trivial, hst⟩
  | some r =>
    rw [hf] at hfind
    have hft : t.receipts.find? (fun x => x.id == rid && x.org == o) = some r :=
      hfind.symm
    simp only [deleteReceipt, hf, hft]
    refine ⟨by trivial, ?_⟩
    simp only [projL, LState.mk.injEq]
    refine ⟨?_, ?_, projL_shipments hst, projL_items hst⟩
    · rw [filter_org_map_same Product.org (fun p => p.id == r.productId) o
            (fun p => { p with stock := if p.stock - r.quantity < 0 then 0
                          else p.stock - r.quantity }) (fun x => rfl) s.products,
          filter_org_map_same Product.org (fun p => p.id == r.productId) o
            (fun p => { p with stock := if p.stock - r.quantity < 0 then 0
                          else p.stock - r.quantity }) (fun x => rfl) t.products,
          projL_products hst]
    · rw [filter_comm', filter_comm'
            (fun x => !(x.id == rid && x.org == o)) (fun r => r.org == o) t.receipts,
          projL_receipts hst]

theorem deleteReceipt_frame (o o' : String) (hne : o' ≠ o) (rid : String) (s : LState) :
    projL o' (deleteReceipt o rid s).2 = projL o' s := by
  cases hf : s.receipts.find? (fun r => r.id == rid && r.org == o) with
  | none => simp [deleteReceipt, hf]
  | some r =>
    simp only [deleteReceipt, hf, projL, LState.mk.injEq]
    refine ⟨?_, ?_, by trivial, by trivial⟩
    · exact filter_org_map_other Product.org (fun p => p.id == r.productId) o o'
        (fun p => { p with stock := if p.stock - r.quantity < 0 then 0
                      else p.stock - r.quantity }) (fun x => rfl) hne s.products
    · exact filter_org_del_other Receipt.org (fun x => x.id == rid) o o' hne s.receipts

/-- Under unique shipment ids and org-consistent item references, an item
that points at an org-o shipment is itself an org-o row. -/
theorem item_org_of_ship (o : String) (s : LState)
    (hnod : (s.shipments.map (fun x => x.id)).Nodup)
    (href : ∀ i ∈ s.items, ∃ sh ∈ s.shipments, sh.id = i.shipmentId ∧ sh.org = i.org)
    (sh : Shipment) (hsh : sh ∈ s.shipments) (horg : sh.org = o) :
    ∀ i ∈ s.items, (i.shipmentId == sh.id) = true → i.org = o := by
  intro i hi hbeq
  rcases href i hi with ⟨sh', hsh', hid, horg'⟩
  have hateq : i.shipmentId = sh.id := by simpa using hbeq
  have heq : sh' = sh := List.inj_on_of_nodup_map hnod hsh' hsh (by rw [hid, hateq])
  rw [← horg', heq, horg]

/-- Under well-formedness, rows of a different organization never reference
a product that exists in org o with id `pid`. -/
theorem org_ref_ne (o o' pid : String) (hne : o' ≠ o) (s : LState) (hwf : WF s)
    (hpid : ∃ p ∈ s.products, p.id = pid ∧ p.org = o) :
    (∀ r ∈ s.receipts, r.org = o' → r.productId ≠ pid) ∧
    (∀ i ∈ s.items, i.org = o' → i.productId ≠ pid) := by
  rcases hpid with ⟨p, hp, hid, horg⟩
  constructor
  · intro r hr horg' href
    rcases hwf.2.2.2.1 r hr with ⟨p', hp', hid', horg''⟩
    have heq : p' = p := List.inj_on_of_nodup_map hwf.1 hp' hp (by rw [hid', href, hid])
    apply hne
    rw [← horg', ← horg'', heq, horg]
  · intro i hi horg' href
    rcases hwf.2.2.2.2.1 i hi with ⟨p', hp', hid', horg''⟩
    have heq : p' = p := List.inj_on_of_nodup_map hwf.1 hp' hp (by rw [hid', href, hid])
    apply hne
    rw [← horg', ← horg'', heq, horg]

theorem deleteProduct_iso (o pid : String) (s t : LState)
    (hwfS : WF s) (hwfT : WF t) (hst : projL o s = projL o t) :
    (deleteProduct o pid s).1 = (deleteProduct o pid t).1 ∧
    projL o (deleteProduct o pid s).2 = projL o (deleteProduct o pid t).2 := by
  have hany := any_products_congr o (fun p => p.id == pid) hst
  by_cases h : s.products.any (fun p => p.id == pid && p.org == o) = true
  · have ht : t.products.any (fun p => p.id == pid && p.org == o) = true := by
      rw [← hany]
      exact h
    simp only [deleteProduct, if_pos h, if_pos ht]
    refine ⟨by trivial, ?_⟩
    have hitems : (s.items.filter (fun i => !(i.productId == pid))).filter
          (fun i => i.org == o)
        = (t.items.filter (fun i => !(i.productId == pid))).filter
          (fun i => i.org == o) := by
      rw [filter_comm', filter_comm' (fun i => !(i.productId == pid))
            (fun i => i.org == o) t.items, projL_items hst]
    simp only [projL, LState.mk.injEq]
    refine ⟨?_, ?_, ?_, hitems⟩
    · rw [filter_comm', filter_comm' (fun p => !(p.id == pid && p.org == o))
            (fun p => p.org == o) t.products, projL_products hst]
    · rw [filter_comm', filter_comm' (fun r => !(r.productId == pid))
            (fun r => r.org == o) t.receipts, projL_receipts hst]
    · rw [filter_comm', filter_comm'
            (fun sh => !((((t.items.filter (fun i => !(i.productId == pid))).countP
              (fun i => i.shipmentId == sh.id)) == 0) && sh.org == o))
            (fun sh => sh.org == o) t.shipments, projL_shipments hst]
      apply List.filter_congr
      intro sh hsh
      have hshT : sh ∈ t.shipments := List.mem_of_mem_filter hsh
      have hshS : sh ∈ s.shipments := by
        have hmem : sh ∈ s.shipments.filter (fun x => x.org == o) := by
          rw [projL_shipments hst]
          exact hsh
        exact List.mem_of_mem_filter hmem
      have horg : sh.org = o := by
        have := (List.mem_filter.mp hsh).2
        simpa using this
      have hcount : (s.items.filter (fun i => !(i.productId == pid))).countP
            (fun i => i.shipmentId == sh.id)
          = (t.items.filter (fun i => !(i.productId == pid))).countP
            (fun i => i.shipmentId == sh.id) := by
        rw [countP_filter_org ShipmentItem.org o (fun i => i.shipmentId == sh.id)
              (s.items.filter (fun i => !(i.productId == pid)))
              (fun i hi hp => item_org_of_ship o s hwfS.2.2.1 hwfS.2.2.2.2.2 sh hshS horg
                i (List.mem_of_mem_filter hi) hp),
            countP_filter_org ShipmentItem.org o (fun i => i.shipmentId == sh.id)
              (t.items.filter (fun i => !(i.productId == pid)))
              (fun i hi hp => item_org_of_ship o t hwfT.2.2.1 hwfT.2.2.2.2.2 sh hshT horg
                i (List.mem_of_mem_filter hi) hp)]
        rw [filter_comm', filter_comm' (fun i => !(i.productId == pid))
              (fun i => ShipmentItem.org i == o) t.items]
        rw [show (fun i => ShipmentItem.org i == o) = (fun i : ShipmentItem => i.org == o)
              from rfl, projL_items hst]
      rw [hcount]
  · have ht : ¬t.products.any (fun p => p.id == pid && p.org == o) = true := by
      rw [← hany]
      exact h
    simp only [deleteProduct, if_neg h, if_neg ht]
    exact ⟨by trivial, hst⟩

theorem deleteProduct_frame (o o' : String) (hne : o' ≠ o) (pid : String)
    (s : LState) (hwf : WF s) :
    projL o' (deleteProduct o pid s).2 = projL o' s := by
  by_cases h : s.products.any (fun p => p.id == pid && p.org == o) = true
  · have hpid : ∃ p ∈ s.products, p.id = pid ∧ p.org = o := by
      rcases List.any_eq_true.mp h with ⟨p, hp, hpred⟩
      refine ⟨p, hp, ?_⟩
      simpa using hpred
    have href := org_ref_ne o o' pid hne s hwf hpid
    simp only [deleteProduct, if_pos h, projL, LState.mk.injEq]
    refine ⟨?_, ?_, ?_, ?_⟩
    · exact filter_org_del_other Product.org (fun p => p.id == pid) o o' hne s.products
    · apply filter_of_all_org Receipt.org o' (fun r => !(r.productId == pid)) s.receipts
      intro r hr horg
      simp [href.1 r hr horg]
    · apply filter_of_all_org Shipment.org o'
        (fun sh => !((((s.items.filter (fun i => !(i.productId == pid))).countP
          (fun i => i.shipmentId == sh.id)) == 0) && sh.org == o)) s.shipments
      intro sh hsh horg
      have hno : (sh.org == o) = false := by
        simp only [beq_eq_false_iff_ne, ne_eq, horg]
        exact fun hEq => hne hEq
      simp [hno]
    · apply filter_of_all_org ShipmentItem.org o' (fun i => !(i.productId == pid)) s.items
      intro i hi horg
      simp [href.2 i hi horg]
  · simp only [deleteProduct, if_neg h]

/-- Phase-1 validation only reads the caller-org slice of the catalog. -/
theorem validateLines_congr (o : String) (lines : List Prepared) {s t : LState}
    (hst : projL o s = projL o t) :
    validateLines o s.products lines = validateLines o t.products lines := by
  induction lines with
  | nil => rfl
  | cons line rest ih =>
    unfold validateLines
    rw [find?_products_congr o (fun p => p.id == line.productId) hst]
    cases htf : t.products.find? (fun p => p.id == line.productId && p.org == o) with
    | none => rfl
    | some p =>
      by_cases hstock : p.stock < line.qty
      · simp [hstock]
      · simp only [if_neg hstock]
        exact ih

/-- The phase-2 price snapshot only reads the caller-org slice. -/
theorem priceOf_congr (o : String) (line : Prepared) {s t : LState}
    (hst : projL o s = projL o t) :
    priceOf o s.products line = priceOf o t.products line := by
  unfold priceOf
  cases line.price with
  | some cp => rfl
  | none => rw [find?_products_congr o (fun p => p.id == line.productId) hst]

/-- Every item row phase 2 produces carries the new header's id and the
caller's org. -/
theorem commitLines_items_prop (o sid : String) (lines : List Prepared)
    (ps : List Product) (r : List Product × List ShipmentItem)
    (h : commitLines o sid lines ps = some r) :
    ∀ i ∈ r.2, i.shipmentId = sid ∧ i.org = o := by
  induction lines generalizing ps r with
  | nil =>
    simp only [commitLines, Option.some.injEq] at h
    rw [← h]
    intro i hi
    simp at hi
  | cons line rest ih =>
    simp only [commitLines] at h
    cases hf : ps.find? (fun p => p.id == line.productId && p.org == o) with
    | none =>
      rw [hf] at h
      simp at h
    | some p =>
      rw [hf] at h
      simp only [Option.map_eq_some'] at h
      rcases h with ⟨r', hr', hconv⟩
      rw [← hconv]
      intro i hi
      rcases List.mem_cons.mp hi with heq | hmem
      · subst heq
        exact ⟨rfl, rfl⟩
      · exact ih _ r' hr' i hmem

theorem createShipment_iso (o sid : String) (its : List RawItem) (s t : LState)
    (hst : projL o s = projL o t) :
    (createShipment o sid its s).1 = (createShipment o sid its t).1 ∧
    projL o (createShipment o sid its s).2 = projL o (createShipment o sid its t).2 := by
  by_cases hempty : its.isEmpty = true
  · simp only [createShipment, if_pos hempty]
    exact ⟨by trivial, hst⟩
  cases hprep : prepareItems its with
  | none =>
    simp only [createShipment, if_neg hempty, hprep]
    exact ⟨by trivial, hst⟩
  | some lines =>
    have hval := validateLines_congr o lines hst
    cases hv : validateLines o t.products lines with
    | some e =>
      rw [hv] at hval
      simp only [createShipment, if_neg hempty, hprep, hval, hv]
      exact ⟨by trivial, hst⟩
    | none =>
      rw [hv] at hval
      have hfoundS : ∀ line ∈ lines,
          (s.products.find? (fun p => p.id == line.productId && p.org == o)).isSome := by
        intro l hl
        rcases (validateLines_none_iff o s.products lines).mp hval l hl with ⟨p, hp, -⟩
        rw [hp]
        rfl
      have hfoundT : ∀ line ∈ lines,
          (t.products.find? (fun p => p.id == line.productId && p.org == o)).isSome := by
        intro l hl
        rcases (validateLines_none_iff o t.products lines).mp hv l hl with ⟨p, hp, -⟩
        rw [hp]
        rfl
      have hcS := commitLines_eq o sid lines s.products hfoundS
      have hcT := commitLines_eq o sid lines t.products hfoundT
      simp only [createShipment, if_neg hempty, hprep, hval, hv, hcS, hcT]
      refine ⟨by trivial, ?_⟩
      have hnew : lines.map (fun line =>
            (⟨sid, o, line.productId, line.qty, priceOf o s.products line,
              priceOf o s.products line * line.qty⟩ : ShipmentItem))
          = lines.map (fun line =>
            ⟨sid, o, line.productId, line.qty, priceOf o t.products line,
             priceOf o t.products line * line.qty⟩) := by
        apply List.map_congr_left
        intro l _
        rw [priceOf_congr o l hst]
      simp only [projL, List.filter_cons, beq_self_eq_true, if_true, LState.mk.injEq,
        List.filter_append]
      refine ⟨?_, projL_receipts hst, congrArg (_ :: ·) (projL_shipments hst), ?_⟩
      · rw [filter_org_maporg_same Product.org o
              (fun p => { p with stock := p.stock - linesQty p.id lines })
              (fun x => rfl) s.products,
            filter_org_maporg_same Product.org o
              (fun p => { p with stock := p.stock - linesQty p.id lines })
              (fun x => rfl) t.products,
            projL_products hst]
      · have hkeepS : (lines.map (fun line =>
              (⟨sid, o, line.productId, line.qty, priceOf o s.products line,
                priceOf o s.products line * line.qty⟩ : ShipmentItem))).filter
              (fun i => i.org == o)
            = lines.map (fun line =>
              ⟨sid, o, line.productId, line.qty, priceOf o s.products line,
               priceOf o s.products line * line.qty⟩) := by
          rw [List.filter_eq_self]
          intro i hi
          rcases List.mem_map.mp hi with ⟨l, -, hconv⟩
          subst hconv
          simp
        have hkeepT : (lines.map (fun line =>
              (⟨sid, o, line.productId, line.qty, priceOf o t.products line,
                priceOf o t.products line * line.qty⟩ : ShipmentItem))).filter
              (fun i => i.org == o)
            = lines.map (fun line =>
              ⟨sid, o, line.productId, line.qty, priceOf o t.products line,
               priceOf o t.products line * line.qty⟩) := by
          rw [List.filter_eq_self]
          intro i hi
          rcases List.mem_map.mp hi with ⟨l, -, hconv⟩
          subst hconv
          simp
        rw [hkeepS, hkeepT, projL_items hst, hnew]

theorem createShipment_frame (o o' : String) (hne : o' ≠ o) (sid : String)
    (its : List RawItem) (s : LState) :
    projL o' (createShipment o sid its s).2 = projL o' s := by
  have hoo := beq_org_false hne
  by_cases hempty : its.isEmpty = true
  · simp only [createShipment, if_pos hempty]
  cases hprep : prepareItems its with
  | none => simp only [createShipment, if_neg hempty, hprep]
  | some lines =>
    cases hv : validateLines o s.products lines with
    | some e => simp only [createShipment, if_neg hempty, hprep, hv]
    | none =>
      have hfound : ∀ line ∈ lines,
          (s.products.find? (fun p => p.id == line.productId && p.org == o)).isSome := by
        intro l hl
        rcases (validateLines_none_iff o s.products lines).mp hv l hl with ⟨p, hp, -⟩
        rw [hp]
        rfl
      have hc := commitLines_eq o sid lines s.products hfound
      simp only [createShipment, if_neg hempty, hprep, hv, hc]
      have hdrop : (lines.map (fun line =>
            (⟨sid, o, line.productId, line.qty, priceOf o s.products line,
              priceOf o s.products line * line.qty⟩ : ShipmentItem))).filter
            (fun i => i.org == o') = [] := by
        rw [List.filter_eq_nil_iff]
        intro i hi
        rcases List.mem_map.mp hi with ⟨l, -, hconv⟩
        subst hconv
        simp only [hoo]
        exact fun hfalse => by simp at hfalse
      simp only [projL, List.filter_cons, hoo, Bool.false_eq_true, if_false,
        List.filter_append, hdrop, List.append_nil, LState.mk.injEq]
      refine ⟨?_, by trivial, by trivial, by trivial⟩
      exact filter_org_maporg_other Product.org o o'
        (fun p => { p with stock := p.stock - linesQty p.id lines })
        (fun x => rfl) hne s.products

theorem deleteShipment_iso (o sid : String) (s t : LState)
    (hst : projL o s = projL o t) :
    (deleteShipment o sid s).1 = (deleteShipment o sid t).1 ∧
    projL o (deleteShipment o sid s).2 = projL o (deleteShipment o sid t).2 := by
  have hfind := find?_shipments_congr o (fun sh => sh.id == sid) hst
  cases hf : s.shipments.find? (fun sh => sh.id == sid && sh.org == o) with
  | none =>
    rw [hf] at hfind
    simp only [deleteShipment, hf, ← hfind]
    exact ⟨by trivial, hst⟩
  | some sh =>
    rw [hf] at hfind
    have hft : t.shipments.find? (fun x => x.id == sid && x.org == o) = some sh :=
      hfind.symm
    have hits : s.items.filter (fun i => i.shipmentId == sid && i.org == o)
        = t.items.filter (fun i => i.shipmentId == sid && i.org == o) := by
      rw [filter_restrict_org ShipmentItem.org o (fun i => i.shipmentId == sid && i.org == o)
            s.items (fun i _ hp => by simpa using (Bool.and_eq_true _ _ |>.mp hp).2),
          filter_restrict_org ShipmentItem.org o (fun i => i.shipmentId == sid && i.org == o)
            t.items (fun i _ hp => by simpa using (Bool.and_eq_true _ _ |>.mp hp).2)]
      rw [show (fun i => ShipmentItem.org i == o) = (fun i : ShipmentItem => i.org == o)
            from rfl, projL_items hst]
    simp only [deleteShipment, hf, hft, hits]
    refine ⟨by trivial, ?_⟩
    simp only [projL, LState.mk.injEq]
    refine ⟨?_, projL_receipts hst, ?_, ?_⟩
    · rw [restoreItems_eq, restoreItems_eq]
      rw [filter_org_maporg_same Product.org o
            (fun p => { p with stock := p.stock + itemsQty p.id (t.items.filter (fun i => i.shipmentId == sid && i.org == o)) })
            (fun x => rfl) s.products,
          filter_org_maporg_same Product.org o
            (fun p => { p with stock := p.stock + itemsQty p.id (t.items.filter (fun i => i.shipmentId == sid && i.org == o)) })
            (fun x => rfl) t.products,
          projL_products hst]
    · rw [filter_comm', filter_comm' (fun x => !(x.id == sid && x.org == o))
            (fun sh => sh.org == o) t.shipments, projL_shipments hst]
    · rw [filter_comm', filter_comm' (fun i => !(i.shipmentId == sid))
            (fun i => i.org == o) t.items, projL_items hst]

theorem deleteShipment_frame (o o' : String) (hne : o' ≠ o) (sid : String)
    (s : LState) (hwf : WF s) :
    projL o' (deleteShipment o sid s).2 = projL o' s := by
  cases hf : s.shipments.find? (fun sh => sh.id == sid && sh.org == o) with
  | none => simp only [deleteShipment, hf]
  | some sh =>
    have hmem := List.mem_of_find?_eq_some hf
    have hpred := @List.find?_some _ (fun x => x.id == sid && x.org == o) sh s.shipments hf
    have hid : sh.id = sid := by
      have := (Bool.and_eq_true _ _ |>.mp hpred).1
      simpa using this
    have horg : sh.org = o := by
      have := (Bool.and_eq_true _ _ |>.mp hpred).2
      simpa using this
    simp only [deleteShipment, hf, projL, LState.mk.injEq]
    refine ⟨?_, by trivial, ?_, ?_⟩
    · rw [restoreItems_eq]
      exact filter_org_maporg_other Product.org o o'
        (fun p => { p with stock := p.stock + itemsQty p.id (s.items.filter (fun i => i.shipmentId == sid && i.org == o)) })
        (fun x => rfl) hne s.products
    · exact filter_org_del_other Shipment.org (fun x => x.id == sid) o o' hne s.shipments
    · apply filter_of_all_org ShipmentItem.org o' (fun i => !(i.shipmentId == sid)) s.items
      intro i hi horg'
      have hio : i.org ≠ o := by
        rw [horg']
        exact hne
      have : i.shipmentId ≠ sid := by
        intro heq
        apply hio
        exact item_org_of_ship o s hwf.2.2.1 hwf.2.2.2.2.2 sh hmem horg i hi
          (by simp [heq, hid])
      simp [this]

/-- The shipment-side well-formedness needed for the snapshot: unique
shipment ids and org-consistent item references. -/
def ItemsOK (s : LState) : Prop :=
  (s.shipments.map (fun x => x.id)).Nodup ∧
  ∀ i ∈ s.items, ∃ sh ∈ s.shipments, sh.id = i.shipmentId ∧ sh.org = i.org

theorem itemsOK_of_WF {s : LState} (hwf : WF s) : ItemsOK s :=
  ⟨hwf.2.2.1, hwf.2.2.2.2.2⟩

theorem itemsOK_of_eq {s s' : LState} (h : ItemsOK s)
    (hsh : s'.shipments = s.shipments) (hit : s'.items = s.items) : ItemsOK s' := by
  constructor
  · rw [hsh]
    exact h.1
  · rw [hit, hsh]
    exact h.2

/-- Every ledger operation preserves the shipment-side well-formedness (the
generated shipment id being fresh). -/
theorem apply_itemsOK (op : LedgerOp) (o : String) (s : LState)
    (hwf : WF s) (hfresh : OpFresh op s) : ItemsOK (apply op o s).2 := by
  have hok := itemsOK_of_WF hwf
  cases op with
  | fetchStateOp => exact hok
  | createProductOp pid rid n sk ska u pr st pu =>
    apply itemsOK_of_eq hok <;>
      (simp only [apply, createProduct]
       (repeat' split) <;> rfl)
  | updateProductPriceOp pid pr =>
    apply itemsOK_of_eq hok <;>
      (simp only [apply, updateProductPrice]
       (repeat' split) <;> rfl)
  | updateProductOp pid n pr =>
    apply itemsOK_of_eq hok <;>
      (simp only [apply, updateProduct]
       (repeat' split) <;> rfl)
  | createReceiptOp rid pid qty cost =>
    apply itemsOK_of_eq hok <;>
      (simp only [apply, createReceipt]
       (repeat' split) <;> rfl)
  | deleteReceiptOp rid =>
    apply itemsOK_of_eq hok <;>
      (simp only [apply, deleteReceipt]
       (repeat' split) <;> rfl)
  | deleteProductOp pid =>
    simp only [apply, deleteProduct]
    split
    · constructor
      · exact List.Nodup.sublist (List.Sublist.map _ (List.filter_sublist _)) hok.1
      · intro i hi
        have hiS : i ∈ s.items := List.mem_of_mem_filter hi
        rcases hok.2 i hiS with ⟨sh, hsh, hid, horg⟩
        refine ⟨sh, ?_, hid, horg⟩
        rw [List.mem_filter]
        refine ⟨hsh, ?_⟩
        have hpos : 0 < (s.items.filter (fun x => !(x.productId == pid))).countP
            (fun x => x.shipmentId == sh.id) := by
          rw [List.countP_pos]
          exact ⟨i, hi, by simp [hid]⟩
        have hzero : ((s.items.filter (fun x => !(x.productId == pid))).countP
            (fun x => x.shipmentId == sh.id) == 0) = false :=
          beq_eq_false_iff_ne.mpr (Nat.pos_iff_ne_zero.mp hpos)
        simp [hzero]
    · exact hok
  | createShipmentOp sid its =>
    have hfr : ∀ sh ∈ s.shipments, sh.id ≠ sid := hfresh
    simp only [apply, createShipment]
    by_cases hempty : its.isEmpty = true
    · simp only [if_pos hempty]
      exact hok
    simp only [if_neg hempty]
    cases hprep : prepareItems its with
    | none => exact hok
    | some lines =>
      cases hv : validateLines o s.products lines with
      | some e =>
        simp only [hv]
        exact hok
      | none =>
        simp only [hv]
        cases hc : commitLines o sid lines s.products with
        | none => exact hok
        | some r =>
          simp only [hc]
          constructor
          · rw [List.map_cons]
            refine List.nodup_cons.mpr ⟨?_, hok.1⟩
            simp only [List.mem_map, not_exists]
            rintro sh ⟨hsh, hid⟩
            exact hfr sh hsh hid
          · intro i hi
            rcases List.mem_append.mp hi with hold | hnew
            · rcases hok.2 i hold with ⟨sh, hsh, hrest⟩
              exact ⟨sh, List.mem_cons_of_mem _ hsh, hrest⟩
            · have hp := commitLines_items_prop o sid lines s.products r hc i hnew
              exact ⟨⟨sid, o⟩, List.mem_cons_self _ _, hp.1.symm, hp.2.symm⟩
  | deleteShipmentOp sid =>
    simp only [apply, deleteShipment]
    cases hf : s.shipments.find? (fun sh => sh.id == sid && sh.org == o) with
    | none => exact hok
    | some sh =>
      constructor
      · exact List.Nodup.sublist (List.Sublist.map _ (List.filter_sublist _)) hok.1
      · intro i hi
        have hiS := List.mem_of_mem_filter hi
        have hipred := (List.mem_filter.mp hi).2
        rcases hok.2 i hiS with ⟨sh', hsh', hid, horg⟩
        refine ⟨sh', ?_, hid, horg⟩
        rw [List.mem_filter]
        refine ⟨hsh', ?_⟩
        have hfalse : (sh'.id == sid) = false := by
          rw [hid]
          simpa using hipred
        simp [hfalse]

/-- The state snapshot only depends on the caller-org slice. -/
theorem fetchState_congr (o : String) {s t : LState}
    (hS : ItemsOK s) (hT : ItemsOK t) (hst : projL o s = projL o t) :
    fetchState o s = fetchState o t := by
  simp only [fetchState, Prod.mk.injEq]
  refine ⟨projL_products hst, projL_receipts hst, ?_⟩
  rw [projL_shipments hst]
  apply List.map_congr_left
  intro sh hsh
  have hshT : sh ∈ t.shipments := List.mem_of_mem_filter hsh
  have hshS : sh ∈ s.shipments := by
    have hmem : sh ∈ s.shipments.filter (fun x => x.org == o) := by
      rw [projL_shipments hst]
      exact hsh
    exact List.mem_of_mem_filter hmem
  have horg : sh.org = o := by simpa using (List.mem_filter.mp hsh).2
  refine congrArg (Prod.mk sh.id) ?_
  rw [filter_restrict_org ShipmentItem.org o (fun i => i.shipmentId == sh.id) s.items
        (item_org_of_ship o s hS.1 hS.2 sh hshS horg),
      filter_restrict_org ShipmentItem.org o (fun i => i.shipmentId == sh.id) t.items
        (item_org_of_ship o t hT.1 hT.2 sh hshT horg)]
  rw [show (fun i => ShipmentItem.org i == o) = (fun i : ShipmentItem => i.org == o)
        from rfl, projL_items hst]

/-- C3: multi-tenant isolation.  For any two well-formed states with the same
caller-org slice, every ledger operation issued for that org answers the same
error, the same org snapshot (`fetch_state`), and the same caller-org slice
of the resulting state — so the result never depends on another
organization's data — and it leaves every other organization's products,
receipts, shipments and shipment items unchanged.  Moreover supplying an id
that does not resolve inside the caller's organization (in particular an id
scoped to another organization) answers `NotFound` with no state change, for
each id-taking operation. -/
theorem C3_tenant_isolation :
    (∀ (op : LedgerOp) (o1 o2 : String) (s t : LState),
      o2 ≠ o1 → WF s → WF t → OpFresh op s → OpFresh op t →
      projL o1 s = projL o1 t →
      (apply op o1 s).1 = (apply op o1 t).1 ∧
      projL o1 (apply op o1 s).2 = projL o1 (apply op o1 t).2 ∧
      fetchState o1 (apply op o1 s).2 = fetchState o1 (apply op o1 t).2 ∧
      projL o2 (apply op o1 s).2 = projL o2 s ∧
      projL o2 (apply op o1 t).2 = projL o2 t) ∧
    (∀ (o1 pid : String) (pr : Int) (s : LState),
      (∀ p ∈ s.products, ¬(p.id = pid ∧ p.org = o1)) →
      updateProductPrice o1 pid pr s = (some .NotFound, s)) ∧
    (∀ (o1 pid n : String) (pr : Int) (s : LState),
      pstrip n ≠ "" →
      (∀ p ∈ s.products, ¬(p.id = pid ∧ p.org = o1)) →
      updateProduct o1 pid n pr s = (some .NotFound, s)) ∧
    (∀ (o1 pid : String) (s : LState),
      (∀ p ∈ s.products, ¬(p.id = pid ∧ p.org = o1)) →
      deleteProduct o1 pid s = (some .NotFound, s)) ∧
    (∀ (o1 rid pidArg : String) (qty cost : Int) (s : LState),
      pstrip pidArg ≠ "" → 0 < qty →
      (∀ p ∈ s.products, ¬(p.id = pstrip pidArg ∧ p.org = o1)) →
      createReceipt o1 rid pidArg qty cost s = (some .NotFound, s)) ∧
    (∀ (o1 rid : String) (s : LState),
      (∀ r ∈ s.receipts, ¬(r.id = rid ∧ r.org = o1)) →
      deleteReceipt o1 rid s = (some .NotFound, s)) ∧
    (∀ (o1 sid : String) (s : LState),
      (∀ sh ∈ s.shipments, ¬(sh.id = sid ∧ sh.org = o1)) →
      deleteShipment o1 sid s = (some .NotFound, s)) := by
  refine ⟨?_, ?_, ?_, ?_, ?_, ?_, ?_⟩
  · intro op o1 o2 s t hne hwfS hwfT hfrS hfrT hst
    have hOKs := apply_itemsOK op o1 s hwfS hfrS
    have hOKt := apply_itemsOK op o1 t hwfT hfrT
    cases op with
    | fetchStateOp =>
      exact ⟨rfl, hst, fetchState_congr o1 hOKs hOKt hst, rfl, rfl⟩
    | createProductOp pid rid n sk ska u pr st pu =>
      have hiso := createProduct_iso o1 pid rid n sk ska u pr st pu s t hst
      exact ⟨hiso.1, hiso.2, fetchState_congr o1 hOKs hOKt hiso.2,
             createProduct_frame o1 o2 hne pid rid n sk ska u pr st pu s,
             createProduct_frame o1 o2 hne pid rid n sk ska u pr st pu t⟩
    | updateProductPriceOp pid pr =>
      have hiso := updateProductPrice_iso o1 pid pr s t hst
      exact ⟨hiso.1, hiso.2, fetchState_congr o1 hOKs hOKt hiso.2,
             updateProductPrice_frame o1 o2 hne pid pr s,
             updateProductPrice_frame o1 o2 hne pid pr t⟩
    | updateProductOp pid n pr =>
      have hiso := updateProduct_iso o1 pid n pr s t hst
      exact ⟨hiso.1, hiso.2, fetchState_congr o1 hOKs hOKt hiso.2,
             updateProduct_frame o1 o2 hne pid n pr s,
             updateProduct_frame o1 o2 hne pid n pr t⟩
    | deleteProductOp pid =>
      have hiso := deleteProduct_iso o1 pid s t hwfS hwfT hst
      exact ⟨hiso.1, hiso.2, fetchState_congr o1 hOKs hOKt hiso.2,
             deleteProduct_frame o1 o2 hne pid s hwfS,
             deleteProduct_frame o1 o2 hne pid t hwfT⟩
    | createReceiptOp rid pid qty cost =>
      have hiso := createReceipt_iso o1 rid pid qty cost s t hst
      exact ⟨hiso.1, hiso.2, fetchState_congr o1 hOKs hOKt hiso.2,
             createReceipt_frame o1 o2 hne rid pid qty cost s,
             createReceipt_frame o1 o2 hne rid pid qty cost t⟩
    | deleteReceiptOp rid =>
      have hiso := deleteReceipt_iso o1 rid s t hst
      exact ⟨hiso.1, hiso.2, fetchState_congr o1 hOKs hOKt hiso.2,
             deleteReceipt_frame o1 o2 hne rid s,
             deleteReceipt_frame o1 o2 hne rid t⟩
    | createShipmentOp sid its =>
      have hiso := createShipment_iso o1 sid its s t hst
      exact ⟨hiso.1, hiso.2, fetchState_congr o1 hOKs hOKt hiso.2,
             createShipment_frame o1 o2 hne sid its s,
             createShipment_frame o1 o2 hne sid its t⟩
    | deleteShipmentOp sid =>
      have hiso := deleteShipment_iso o1 sid s t hst
      exact ⟨hiso.1, hiso.2, fetchState_congr o1 hOKs hOKt hiso.2,
             deleteShipment_frame o1 o2 hne sid s hwfS,
             deleteShipment_frame o1 o2 hne sid t hwfT⟩
  · intro o1 pid pr s habs
    have h : s.products.any (fun p => p.id == pid && p.org == o1) = false := by
      rw [List.any_eq_false]
      intro p hp
      simp only [Bool.and_eq_true, beq_iff_eq]
      exact fun hcon => habs p hp ⟨hcon.1, hcon.2⟩
    simp [updateProductPrice, h]
  · intro o1 pid n pr s hname habs
    have h : s.products.any (fun p => p.id == pid && p.org == o1) = false := by
      rw [List.any_eq_false]
      intro p hp
      simp only [Bool.and_eq_true, beq_iff_eq]
      exact fun hcon => habs p hp ⟨hcon.1, hcon.2⟩
    simp [updateProduct, hname, h]
  · intro o1 pid s habs
    have h : s.products.any (fun p => p.id == pid && p.org == o1) = false := by
      rw [List.any_eq_false]
      intro p hp
      simp only [Bool.and_eq_true, beq_iff_eq]
      exact fun hcon => habs p hp ⟨hcon.1, hcon.2⟩
    simp [deleteProduct, h]
  · intro o1 rid pidArg qty cost s hpid hq habs
    have h : s.products.find? (fun p => p.id == pstrip pidArg && p.org == o1) = none := by
      rw [List.find?_eq_none]
      intro p hp
      simp only [Bool.and_eq_true, beq_iff_eq]
      exact fun hcon => habs p hp ⟨hcon.1, hcon.2⟩
    have hq' : ¬qty ≤ 0 := by omega
    simp [createReceipt, hpid, hq', h]
  · intro o1 rid s habs
    have h : s.receipts.find? (fun r => r.id == rid && r.org == o1) = none := by
      rw [List.find?_eq_none]
      intro r hr
      simp only [Bool.and_eq_true, beq_iff_eq]
      exact fun hcon => habs r hr ⟨hcon.1, hcon.2⟩
    simp [deleteReceipt, h]
  · intro o1 sid s habs
    have h : s.shipments.find? (fun sh => sh.id == sid && sh.org == o1) = none := by
      rw [List.find?_eq_none]
      intro sh hsh
      simp only [Bool.and_eq_true, beq_iff_eq]
      exact fun hcon => habs sh hsh ⟨hcon.1, hcon.2⟩
    simp [deleteShipment, h]

/-- Caller-org state for the C3 witness. -/
def c3sA : LState := ⟨[⟨"pA", "o1", "A", "s", "u", 10, 5, 1⟩], [], [], []⟩

/-- The same caller-org slice plus a fully populated second organization. -/
def c3sB : LState :=
  ⟨[⟨"pA", "o1", "A", "s", "u", 10, 5, 1⟩, ⟨"pB", "o2", "B", "s", "u", 20, 9, 2⟩],
   [⟨"rB", "o2", "pB", 9, 2⟩], [⟨"shB", "o2"⟩], [⟨"shB", "o2", "pB", 1, 20, 20⟩]⟩

/-- Witness for C3 at a concrete input: a receipt posted in org o1 behaves
identically whether or not org o2's data is present, and leaves org o2's
slice untouched. -/
theorem C3_tenant_isolation_witness :
    (apply (.createReceiptOp "rN" "pA" 3 0) "o1" c3sA).1
      = (apply (.createReceiptOp "rN" "pA" 3 0) "o1" c3sB).1 ∧
    fetchState "o1" (apply (.createReceiptOp "rN" "pA" 3 0) "o1" c3sA).2
      = fetchState "o1" (apply (.createReceiptOp "rN" "pA" 3 0) "o1" c3sB).2 ∧
    projL "o2" (apply (.createReceiptOp "rN" "pA" 3 0) "o1" c3sB).2 = projL "o2" c3sB := by
  have h := C3_tenant_isolation.1 (.createReceiptOp "rN" "pA" 3 0) "o1" "o2" c3sA c3sB
    (by decide) (by decide) (by decide) (by decide) (by decide) (by decide)
  exact ⟨h.1, h.2.2.1, h.2.2.2.2⟩

end Medlab
